import Mathlib

set_option maxRecDepth 100000

/-!
Shallow embedding of the peek-a-bin PE-analyzer core (TypeScript sources) and
proofs about it.  Byte images are `List Nat` (little-endian reads defined
explicitly), JS `Map`s are insertion-ordered association lists, JS regular
expressions over operand strings are modelled by explicit scanners over
`List Char`, and JS number arithmetic on addresses is carried out in `Int`
(or in `Nat` where the source values are provably non-negative).
-/

/-! ## JS Map and string primitives -/

/-- Lookup in an insertion-ordered association list (JS `Map.get`). -/
def jsMapGet {α β : Type} [DecidableEq α] (m : List (α × β)) (k : α) : Option β :=
  (m.find? (fun p => decide (p.1 = k))).map (·.2)

/-- JS `Map.set`: overwrite in place if the key exists, else append. -/
def jsMapSet {α β : Type} [DecidableEq α] (m : List (α × β)) (k : α) (v : β) :
    List (α × β) :=
  if (m.find? (fun p => decide (p.1 = k))).isSome then
    m.map (fun p => if p.1 = k then (k, v) else p)
  else m ++ [(k, v)]

/-- JS `Map.has`. -/
def jsMapHas {α β : Type} [DecidableEq α] (m : List (α × β)) (k : α) : Bool :=
  (jsMapGet m k).isSome

/-- Hex-digit test, mirroring the character class `[0-9a-fA-F]`. -/
def isHexDigit (c : Char) : Bool :=
  decide (('0' ≤ c ∧ c ≤ '9') ∨ ('a' ≤ c ∧ c ≤ 'f') ∨ ('A' ≤ c ∧ c ≤ 'F'))

/-- Value of one hex digit. -/
def hexVal (c : Char) : Nat :=
  if '0' ≤ c ∧ c ≤ '9' then c.toNat - '0'.toNat
  else if 'a' ≤ c ∧ c ≤ 'f' then c.toNat - 'a'.toNat + 10
  else if 'A' ≤ c ∧ c ≤ 'F' then c.toNat - 'A'.toNat + 10
  else 0

/-- `parseInt(digits, 16)` on an already-captured run of hex digits. -/
def hexValueOf (ds : List Char) : Nat :=
  ds.foldl (fun a c => a * 16 + hexVal c) 0

/-- Split a character list into its maximal leading hex-digit run and the rest
(the greedy `[0-9a-fA-F]+` of the source regexes). -/
def takeHexRun : List Char → List Char × List Char
  | [] => ([], [])
  | c :: cs =>
    if isHexDigit c then
      let r := takeHexRun cs
      (c :: r.1, r.2)
    else ([], c :: cs)

/-- Fuelled scanner for the global regex `/0x([0-9a-fA-F]+)/g`.  The list
shrinks by at least one element per step, so fuel equal to the initial length
always suffices; fuel keeps the recursion structural (kernel-reducible). -/
def scanHexAux : Nat → List Char → List Nat
  | 0, _ => []
  | _ + 1, [] => []
  | fuel + 1, '0' :: 'x' :: cs =>
    match takeHexRun cs with
    | (d :: ds, rest) => hexValueOf (d :: ds) :: scanHexAux fuel rest
    | ([], _) => scanHexAux fuel ('x' :: cs)
  | fuel + 1, _ :: cs => scanHexAux fuel cs

/-- All matches of `/0x([0-9a-fA-F]+)/g`, parsed with `parseInt(_, 16)`, in
left-to-right order; scanning resumes after each match. -/
def scanHexLiterals (l : List Char) : List Nat :=
  scanHexAux l.length l

/-- The anchored regex `/^0x([0-9a-fA-F]+)$/`: the whole string is one bare
hex literal.  Returns its parsed value. -/
def bareHexLiteral : List Char → Option Nat
  | '0' :: 'x' :: cs =>
    match takeHexRun cs with
    | (d :: ds, []) => some (hexValueOf (d :: ds))
    | _ => none
  | _ => none

/-- JS `\s` on the ASCII operand strings produced by the decoder. -/
def jsWhitespace (c : Char) : Bool :=
  decide (c = ' ' ∨ c = '\t' ∨ c = '\n' ∨ c = '\r')

/-- Attempt to match the regex `\[rip\s*([+-])\s*0x([0-9a-fA-F]+)\]` at the
head of the list.  Returns (sign is `+`, displacement value). -/
def matchRipAt (l : List Char) : Option (Bool × Nat) :=
  match l with
  | '[' :: 'r' :: 'i' :: 'p' :: rest =>
    let r1 := rest.dropWhile jsWhitespace
    match r1 with
    | sgn :: r2 =>
      if sgn = '+' ∨ sgn = '-' then
        match r2.dropWhile jsWhitespace with
        | '0' :: 'x' :: r3 =>
          match takeHexRun r3 with
          | (d :: ds, ']' :: _) => some (sgn = '+', hexValueOf (d :: ds))
          | _ => none
        | _ => none
      else none
    | [] => none
  | _ => none

/-- First match of `/\[rip\s*([+-])\s*0x([0-9a-fA-F]+)\]/` in the string
(JS `String.match` without the `g` flag). -/
def findRip : List Char → Option (Bool × Nat)
  | [] => none
  | c :: cs =>
    match matchRipAt (c :: cs) with
    | some r => some r
    | none => findRip cs

/-! ## Instruction and xref data model (src/disasm/types.ts) -/

/-- Decoded instruction record. -/
structure Instruction where
  address : Nat
  bytes : List Nat
  mnemonic : String
  opStr : String
  size : Nat
  comment : Option String := none
deriving DecidableEq

/-- Xref type tag. -/
inductive XrefType
  | call
  | jmp
  | branch
  | data
deriving DecidableEq

/-- One cross reference; the source field `from` is a Lean keyword and is
rendered `fromAddr`. -/
structure Xref where
  fromAddr : Int
  type : XrefType
deriving DecidableEq

/-! ## buildTypedXrefMap (disassembly worker) -/

/-- The conditional-jump mnemonic set of `buildTypedXrefMap`. -/
def conditionalJumps : List String :=
  ["je", "jne", "jz", "jnz", "jg", "jge", "jl", "jle",
   "ja", "jae", "jb", "jbe", "jo", "jno", "js", "jns",
   "jp", "jnp", "jcxz", "jecxz", "jrcxz"]

/-- Does the mnemonic start with the letter j (JS `mn.startsWith('j')`)? -/
def startsWithJ (s : String) : Bool :=
  match s.data with
  | 'j' :: _ => true
  | _ => false

/-- Append an xref to the target's list, creating the entry at the end of the
map when the target is new (JS `Map` insertion order with `arr.push`). -/
def addXref (m : List (Int × List Xref)) (t : Int) (x : Xref) :
    List (Int × List Xref) :=
  if (m.find? (fun p => decide (p.1 = t))).isSome then
    m.map (fun p => if p.1 = t then (p.1, p.2 ++ [x]) else p)
  else m ++ [(t, [x])]

/-- Per-instruction step of `buildTypedXrefMap` (the loop body over
`instructions`). -/
def processXrefInsn (m : List (Int × List Xref)) (insn : Instruction) :
    List (Int × List Xref) :=
  let mn := insn.mnemonic
  match bareHexLiteral insn.opStr.data with
  | some target =>
    if mn = "call" then
      addXref m (Int.ofNat target) ⟨Int.ofNat insn.address, XrefType.call⟩
    else if mn = "jmp" then
      addXref m (Int.ofNat target) ⟨Int.ofNat insn.address, XrefType.jmp⟩
    else if conditionalJumps.contains mn ∨ startsWithJ mn then
      addXref m (Int.ofNat target) ⟨Int.ofNat insn.address, XrefType.branch⟩
    else m
  | none =>
    match findRip insn.opStr.data with
    | some (isPlus, disp) =>
      let target : Int :=
        Int.ofNat insn.address + Int.ofNat insn.size +
          (if isPlus then (disp : Int) else -(disp : Int))
      let ty : XrefType :=
        if mn = "call" then XrefType.call
        else if mn = "jmp" then XrefType.jmp
        else XrefType.data
      addXref m target ⟨Int.ofNat insn.address, ty⟩
    | none =>
      if mn ≠ "call" ∧ mn ≠ "jmp" ∧ ¬ startsWithJ mn then
        (scanHexLiterals insn.opStr.data).foldl
          (fun acc a =>
            if 0x10000 < a then
              addXref acc (Int.ofNat a) ⟨Int.ofNat insn.address, XrefType.data⟩
            else acc) m
      else m

/-- `buildTypedXrefMap` from the disassembly worker: typed xref map as an
entry list in first-insertion order. -/
def buildTypedXrefMap (insns : List Instruction) : List (Int × List Xref) :=
  insns.foldl processXrefInsn []

/-- Origin predicate for the amended C7 statement: the xref `x` on target `t`
stems from the RIP-relative branch of some instruction of the stream. -/
def ripDataOrigin (insns : List Instruction) (t : Int) (x : Xref) : Prop :=
  ∃ i ∈ insns, x.fromAddr = Int.ofNat i.address ∧
    bareHexLiteral i.opStr.data = none ∧
    ∃ isPlus disp, findRip i.opStr.data = some (isPlus, disp) ∧
      t = Int.ofNat i.address + Int.ofNat i.size +
        (if isPlus then (disp : Int) else -(disp : Int))

/-- The property every data xref of the typed map actually satisfies. -/
def dataXrefOk (insns : List Instruction) (t : Int) (x : Xref) : Prop :=
  x.type = XrefType.data → 0x10000 < t ∨ ripDataOrigin insns t x

/-! ## mapInsn (worker annotator) -/

/-- Value of an IAT map entry (library, function). -/
structure IatEntry where
  lib : String
  func : String
deriving DecidableEq

/-- Source comment truncation: strings longer than 60 chars become their
first 57 chars plus an ellipsis. -/
def truncateComment (s : String) : String :=
  if 60 < s.data.length then String.mk (s.data.take 57) ++ "..." else s

/-- Render an IAT hit (JS template literal lib!func). -/
def iatComment (e : IatEntry) : String :=
  e.lib ++ "!" ++ e.func

/-- The RIP-relative target of an instruction, when its operand string
matches the RIP regex: address + size ± disp in JS number arithmetic. -/
def ripResolvedTarget (i : Instruction) : Option Int :=
  match findRip i.opStr.data with
  | some (isPlus, disp) =>
    some (Int.ofNat i.address + Int.ofNat i.size +
      (if isPlus then (disp : Int) else -(disp : Int)))
  | none => none

/-- First element of the hex-literal list whose value hits the map (the
for-loop with break over `opStr.match(/0x([0-9a-fA-F]+)/g)`). -/
def firstAbsHit {β : Type} (m : List (Int × β)) : List Nat → Option β
  | [] => none
  | a :: rest =>
    match jsMapGet m (Int.ofNat a) with
    | some v => some v
    | none => firstAbsHit m rest

/-- RIP-relative string-map lookup of `mapInsn` (first block). -/
def ripStringHit (stringMap : List (Int × String)) (i : Instruction) : Option String :=
  match ripResolvedTarget i with
  | some t => (jsMapGet stringMap t).map truncateComment
  | none => none

/-- Absolute-hex string-map lookup of `mapInsn` (first block fallback). -/
def absStringHit (stringMap : List (Int × String)) (i : Instruction) : Option String :=
  (firstAbsHit stringMap (scanHexLiterals i.opStr.data)).map truncateComment

/-- RIP-relative IAT-map lookup of `mapInsn` (second block). -/
def ripIatHit (iatMap : List (Int × IatEntry)) (i : Instruction) : Option String :=
  match ripResolvedTarget i with
  | some t => (jsMapGet iatMap t).map iatComment
  | none => none

/-- Absolute-hex IAT-map lookup of `mapInsn` (second block fallback). -/
def absIatHit (iatMap : List (Int × IatEntry)) (i : Instruction) : Option String :=
  (firstAbsHit iatMap (scanHexLiterals i.opStr.data)).map iatComment

/-- Comment computation of the worker `mapInsn`: the string-map block runs
first (RIP lookup, then absolute-hex lookup), and only if it produced no
comment does the IAT block run (again RIP, then absolute). -/
def mapInsnComment (stringMap : List (Int × String)) (iatMap : List (Int × IatEntry))
    (i : Instruction) : Option String :=
  let stringComment : Option String :=
    if 0 < stringMap.length then
      match ripStringHit stringMap i with
      | some c => some c
      | none => absStringHit stringMap i
    else none
  match stringComment with
  | some c => some c
  | none =>
    if 0 < iatMap.length then
      match ripIatHit iatMap i with
      | some c => some c
      | none => absIatHit iatMap i
    else none

/-- The worker `mapInsn`: copy the decoded fields and attach the comment. -/
def mapInsn (stringMap : List (Int × String)) (iatMap : List (Int × IatEntry))
    (i : Instruction) : Instruction :=
  { address := i.address, bytes := i.bytes, mnemonic := i.mnemonic,
    opStr := i.opStr, size := i.size,
    comment := mapInsnComment stringMap iatMap i }

/-- Amended annotation priority, written out as the spec sentence forced by
the code: string-map hits (RIP first, then absolute) take priority over all
IAT-map hits (RIP first, then absolute); each block is guarded by its map
being non-empty. -/
def annotPriority (stringMap : List (Int × String)) (iatMap : List (Int × IatEntry))
    (i : Instruction) : Option String :=
  let a := if 0 < stringMap.length then ripStringHit stringMap i else none
  let b := if 0 < stringMap.length then absStringHit stringMap i else none
  let c := if 0 < iatMap.length then ripIatHit iatMap i else none
  let d := if 0 < iatMap.length then absIatHit iatMap i else none
  (((a.orElse (fun _ => b)).orElse (fun _ => c)).orElse (fun _ => d))

/-! ## inferSignature32 (src/disasm/signatures.ts) -/

/-- ASCII lower-casing of one char (JS `toLowerCase` on operand strings). -/
def lowerChar (c : Char) : Char :=
  if 'A' ≤ c ∧ c ≤ 'Z' then Char.ofNat (c.toNat + 32) else c

/-- Lower-case a char list. -/
def lowerChars (l : List Char) : List Char :=
  l.map lowerChar

/-- JS `split(',')`: split on every comma, keeping empty pieces. -/
def splitOnComma : List Char → List (List Char)
  | [] => [[]]
  | ',' :: rest => [] :: splitOnComma rest
  | c :: rest =>
    match splitOnComma rest with
    | h :: t => (c :: h) :: t
    | [] => [[c]]

/-- JS `Array.join(',')` over char-list pieces. -/
def joinComma (parts : List (List Char)) : List Char :=
  List.intercalate [','] parts

/-- Does `pat` occur at the head of the list? -/
def hasPrefixChars : List Char → List Char → Bool
  | [], _ => true
  | _ :: _, [] => false
  | p :: ps, h :: hs => p = h && hasPrefixChars ps hs

/-- JS `String.includes`: `pat` occurs contiguously somewhere in the list. -/
def includesChars (pat : List Char) : List Char → Bool
  | [] => hasPrefixChars pat []
  | c :: rest => hasPrefixChars pat (c :: rest) || includesChars pat rest

/-- JS `String.trim` (whitespace from both ends). -/
def trimChars (l : List Char) : List Char :=
  ((l.dropWhile jsWhitespace).reverse.dropWhile jsWhitespace).reverse

/-- Decimal-digit run (for `parseInt(_, 10)`). -/
def takeDigits : List Char → List Char × List Char
  | [] => ([], [])
  | c :: cs =>
    if '0' ≤ c ∧ c ≤ '9' then
      let r := takeDigits cs
      (c :: r.1, r.2)
    else ([], c :: cs)

/-- Value of a decimal-digit run. -/
def digitsVal (ds : List Char) : Nat :=
  ds.foldl (fun a c => a * 10 + (c.toNat - '0'.toNat)) 0

/-- JS `parseInt(s, 10)`: skip leading whitespace, optional sign, then a
non-empty digit run (truncating at the first non-digit); `none` is NaN. -/
def jsParseIntDec (s : String) : Option Int :=
  let l := s.data.dropWhile jsWhitespace
  match l with
  | '-' :: rest =>
    match takeDigits rest with
    | ([], _) => none
    | (ds, _) => some (-(digitsVal ds : Int))
  | '+' :: rest =>
    match takeDigits rest with
    | ([], _) => none
    | (ds, _) => some (digitsVal ds)
  | _ =>
    match takeDigits l with
    | ([], _) => none
    | (ds, _) => some (digitsVal ds)

/-- Return-immediate parse of `inferSignature32`: the anchored hex regex
first, decimal `parseInt` as fallback (the two source branches merged into
one option value; both sides test the parsed value against 0). -/
def retImmValue (opStr : String) : Option Int :=
  match bareHexLiteral opStr.data with
  | some v => some (Int.ofNat v)
  | none => jsParseIntDec opStr

/-- `isSourceOperand` from signatures.ts: is `reg` read (not written) by the
instruction, per the mnemonic-family rules. -/
def isSourceOperand (mnemonic opStr reg : String) : Bool :=
  let lower := lowerChars opStr.data
  let regLower := lowerChars reg.data
  if mnemonic = "mov" ∨ mnemonic = "lea" ∨ mnemonic = "movzx" ∨ mnemonic = "movsx" then
    let parts := splitOnComma lower
    if 2 ≤ parts.length then
      let inDest := includesChars regLower (parts.headD [])
      let inSrc := includesChars regLower (joinComma (parts.drop 1))
      if inSrc ∧ ¬ inDest then true
      else if inDest ∧ ¬ inSrc then false
      else false
    else false
  else if mnemonic = "cmp" ∨ mnemonic = "test" then
    includesChars regLower lower
  else if mnemonic = "push" then
    includesChars regLower lower
  else if mnemonic = "call" then
    false
  else
    includesChars regLower lower

/-- The ecx read-before-write scan of `inferSignature32` (first up-to-10
instructions, with break on the first read). -/
def scanEcxRead : List Instruction → Bool → Bool
  | [], _ => false
  | i :: rest, written =>
    if ¬ written ∧ isSourceOperand i.mnemonic i.opStr "ecx" then true
    else
      let parts := splitOnComma (lowerChars i.opStr.data)
      scanEcxRead rest
        (written ∨ (trimChars (parts.headD []) = "ecx".data ∧
          (i.mnemonic = "mov" ∨ i.mnemonic = "xor")))

/-- Match `\[ebp\s*\+\s*0x([0-9a-fA-F]+)\]` case-insensitively at the head of
the list; returns the offset value. -/
def matchEbpPlusAt (l : List Char) : Option Nat :=
  match l with
  | '[' :: c1 :: c2 :: c3 :: rest =>
    if lowerChar c1 = 'e' ∧ lowerChar c2 = 'b' ∧ lowerChar c3 = 'p' then
      match rest.dropWhile jsWhitespace with
      | '+' :: r2 =>
        match r2.dropWhile jsWhitespace with
        | c4 :: c5 :: r3 =>
          if c4 = '0' ∧ lowerChar c5 = 'x' then
            match takeHexRun r3 with
            | (d :: ds, ']' :: _) => some (hexValueOf (d :: ds))
            | _ => none
          else none
        | _ => none
      | _ => none
    else none
  | _ => none

/-- First match of the case-insensitive ebp-plus pattern in the string. -/
def findEbpPlus : List Char → Option Nat
  | [] => none
  | c :: cs =>
    match matchEbpPlusAt (c :: cs) with
    | some r => some r
    | none => findEbpPlus cs

/-- Maximal `[ebp + 0xN]` offset with N ≥ 8 over all instructions. -/
def ebpMaxOffset (insns : List Instruction) : Nat :=
  insns.foldl
    (fun acc i =>
      match findEbpPlus i.opStr.data with
      | some off => if 0x8 ≤ off then max acc off else acc
      | none => acc) 0

/-- Inferred signature record; `paramCount` is a JS number that is always a
non-negative integer here. -/
structure FunctionSignature where
  convention : String
  paramCount : Nat
deriving DecidableEq

/-- `inferSignature32` from signatures.ts: stdcall on a trailing `ret N`
with N > 0 (paramCount ⌊N/4⌋), thiscall on an ecx read before write in the
first 10 instructions, else cdecl; when the ret immediate fixed no positive
paramCount, the `[ebp + 0xN]` scan derives it. -/
def inferSignature32 (funcInsns : List Instruction) : FunctionSignature :=
  let step1 : String × Nat :=
    match funcInsns.getLast? with
    | some last =>
      if last.mnemonic = "ret" ∨ last.mnemonic = "retn" then
        match retImmValue last.opStr with
        | some v => if 0 < v then ("stdcall", v.toNat / 4) else ("cdecl", 0)
        | none => ("cdecl", 0)
      else ("cdecl", 0)
    | none => ("cdecl", 0)
  let convention := step1.1
  let paramCount := step1.2
  let ecxRead := scanEcxRead (funcInsns.take 10) false
  let convention2 := if ecxRead ∧ convention ≠ "stdcall" then "thiscall" else convention
  let paramCount2 :=
    if paramCount = 0 then
      let maxOffset := ebpMaxOffset funcInsns
      if 0x8 ≤ maxOffset then (maxOffset - 0x8) / 4 + 1 else paramCount
    else paramCount
  { convention := convention2, paramCount := paramCount2 }

/-! ## detectLoops (src/disasm/cfg.ts) -/

/-- Basic block of the CFG builder. -/
structure BasicBlock where
  id : Nat
  startAddr : Nat
  endAddr : Nat
  insns : List Instruction
  succs : List Nat
  preds : List Nat
deriving DecidableEq

/-- Natural-loop record. -/
structure Loop where
  headerAddr : Nat
  backEdgeFromAddr : Nat
  depth : Nat
deriving DecidableEq

/-- Fuelled BFS layer assignment of `detectLoops`.  Fuel bounds the number of
queue pops; the initial element plus one push per successor edge of each
block (each block is processed as unvisited at most once) makes
`1 + |blocks| + Σ |succs|` always sufficient.  The source's `layers.get(id)!`
is total by invariant (every enqueued id received a layer); it is modelled
with default 0, and the out-of-range `blocks[id]` access with an empty
successor list. -/
def bfsAux (blocks : List BasicBlock) :
    Nat → List Nat → List Nat → List (Nat × Nat) → List (Nat × Nat)
  | 0, _, _, layers => layers
  | _ + 1, [], _, layers => layers
  | fuel + 1, id :: rest, visited, layers =>
    if id ∈ visited then bfsAux blocks fuel rest visited layers
    else
      let visited2 := visited ++ [id]
      let layer := (jsMapGet layers id).getD 0
      let succs := ((blocks.get? id).map (fun b => b.succs)).getD []
      let st := succs.foldl
        (fun (st : List (Nat × Nat) × List Nat) succ =>
          let layers2 :=
            if (jsMapGet st.1 succ).isSome then st.1
            else jsMapSet st.1 succ (layer + 1)
          let queue2 := if succ ∈ visited2 then st.2 else st.2 ++ [succ]
          (layers2, queue2))
        (layers, rest)
      bfsAux blocks fuel st.2 visited2 st.1

/-- BFS layers from block 0 (`layers.set(0, 0)`, queue = [0]). -/
def bfsLayers (blocks : List BasicBlock) : List (Nat × Nat) :=
  bfsAux blocks ((blocks.map (fun b => b.succs.length)).sum + blocks.length + 1)
    [0] [] [(0, 0)]

/-- Back-edge collection of `detectLoops`: an edge whose destination layer is
at most the source layer marks the destination as a loop header, deduplicated
by `startAddr`; `backEdgeFromAddr` is the source block's `endAddr`. -/
def collectLoops (blocks : List BasicBlock) (layers : List (Nat × Nat)) : List Loop :=
  (blocks.foldl
    (fun (st : List Nat × List Loop) block =>
      let blockLayer := (jsMapGet layers block.id).getD 0
      block.succs.foldl
        (fun (st : List Nat × List Loop) succId =>
          let succLayer := (jsMapGet layers succId).getD 0
          if succLayer ≤ blockLayer then
            match blocks.get? succId with
            | some header =>
              if header.startAddr ∈ st.1 then st
              else (st.1 ++ [header.startAddr],
                    st.2 ++ [{ headerAddr := header.startAddr,
                               backEdgeFromAddr := block.endAddr, depth := 0 }])
            | none => st
          else st) st)
    ([], [])).2

/-- Stable insertion into a sorted list (place before the first element the
new one is ≤ to). -/
def insertLe {α : Type} (le : α → α → Bool) (x : α) : List α → List α
  | [] => [x]
  | y :: ys => if le x y then x :: y :: ys else y :: insertLe le x ys

/-- Stable insertion sort (JS `Array.sort` is stable; the keys here are
distinct anyway). -/
def sortByLe {α : Type} (le : α → α → Bool) : List α → List α
  | [] => []
  | x :: xs => insertLe le x (sortByLe le xs)

/-- The comparator `(a, b) => a.headerAddr - b.headerAddr`. -/
def loopLe (a b : Loop) : Bool :=
  decide (a.headerAddr ≤ b.headerAddr)

/-- Depth of the i-th loop: the number of other loops whose half-open range
`[headerAddr, backEdgeFromAddr)` contains this loop's header. -/
def loopDepthAt (l : List Loop) (i : Nat) : Nat :=
  ((List.range l.length).filter
    (fun j =>
      decide (j ≠ i) &&
      match l.get? i, l.get? j with
      | some li, some lj =>
        decide (lj.headerAddr ≤ li.headerAddr) &&
        decide (li.headerAddr < lj.backEdgeFromAddr)
      | _, _ => false)).length

/-- The final depth pass of `detectLoops` (the in-place `loops[i].depth`
writes; header and back-edge fields are never modified). -/
def assignDepths (l : List Loop) : List Loop :=
  l.enum.map (fun p => { p.2 with depth := loopDepthAt l p.1 })

/-- `detectLoops` from cfg.ts. -/
def detectLoops (blocks : List BasicBlock) : List Loop :=
  if blocks.length = 0 then []
  else assignDepths (sortByLe loopLe (collectLoops blocks (bfsLayers blocks)))

/-! ## detectFunctions (disassembly worker) -/

/-- Detected function; `size` is a JS number assigned by subtraction. -/
structure DisasmFunction where
  name : String
  address : Nat
  size : Int
deriving DecidableEq

/-- One export handed to the detector. -/
structure ExportInfo where
  name : String
  address : Nat
deriving DecidableEq

/-- The optional `options` argument of `detectFunctions`. -/
structure DetectOptions where
  exports : Option (List ExportInfo) := none
  entryPoint : Option Nat := none

/-- JS `Set.add` over an insertion-ordered list. -/
def setAdd (l : List Nat) (a : Nat) : List Nat :=
  if a ∈ l then l else l ++ [a]

/-- The Nat comparator `(a, b) => a - b` (ascending sort). -/
def natLe (a b : Nat) : Bool :=
  decide (a ≤ b)

/-- Uppercase hex digit. -/
def hexUpperDigit (n : Nat) : Char :=
  if n < 10 then Char.ofNat ('0'.toNat + n) else Char.ofNat ('A'.toNat + n - 10)

/-- Fuelled uppercase hex rendering (JS `toString(16).toUpperCase()`). -/
def hexUpperAux : Nat → Nat → List Char
  | 0, _ => []
  | fuel + 1, n =>
    if n < 16 then [hexUpperDigit n]
    else hexUpperAux fuel (n / 16) ++ [hexUpperDigit (n % 16)]

/-- Uppercase hex string of a Nat. -/
def hexUpperChars (n : Nat) : List Char :=
  hexUpperAux (n + 1) n

/-- Is the byte a 0xCC / 0x90 alignment pad? -/
def padByte (b : Nat) : Bool :=
  decide (b = 0xCC) || decide (b = 0x90)

/-- Fixed-byte prologue test at offset `i` (the if/else-if chains of the
prologue scan, with their exact length guards). -/
def prologueHit (bytes : List Nat) (is64 : Bool) (i : Nat) : Bool :=
  let len := bytes.length
  if is64 then
    (decide (i + 3 < len) && decide (bytes.getD i 0 = 0x55) &&
      decide (bytes.getD (i + 1) 0 = 0x48) && decide (bytes.getD (i + 2) 0 = 0x89) &&
      decide (bytes.getD (i + 3) 0 = 0xE5)) ||
    (decide (i + 3 < len) && decide (bytes.getD i 0 = 0x48) &&
      decide (bytes.getD (i + 1) 0 = 0x83) && decide (bytes.getD (i + 2) 0 = 0xEC)) ||
    (decide (i + 6 < len) && decide (bytes.getD i 0 = 0x48) &&
      decide (bytes.getD (i + 1) 0 = 0x81) && decide (bytes.getD (i + 2) 0 = 0xEC))
  else
    (decide (i + 2 < len) && decide (bytes.getD i 0 = 0x55) &&
      decide (bytes.getD (i + 1) 0 = 0x8B) && decide (bytes.getD (i + 2) 0 = 0xEC)) ||
    (decide (i + 2 < len) && decide (bytes.getD i 0 = 0x55) &&
      decide (bytes.getD (i + 1) 0 = 0x89) && decide (bytes.getD (i + 2) 0 = 0xE5))

/-- End of the pad run starting at `pos` (the inner `while` of the
alignment-pad heuristic); fuel bounds the walk. -/
def padRunEnd (bytes : List Nat) : Nat → Nat → Nat
  | 0, pos => pos
  | fuel + 1, pos =>
    if pos < bytes.length ∧ padByte (bytes.getD pos 0) then
      padRunEnd bytes fuel (pos + 1)
    else pos

/-- Alignment-pad heuristic: addresses added (in order) by the pad scan.  The
outer loop resumes at `padEnd` (source: `i = padEnd - 1` before `i++`); fuel
equal to the byte count suffices since the position strictly increases. -/
def padScanAux (bytes : List Nat) (base : Nat) : Nat → Nat → List Nat
  | 0, _ => []
  | fuel + 1, i =>
    if i < bytes.length then
      if padByte (bytes.getD i 0) then
        let padEnd := padRunEnd bytes (bytes.length - (i + 1)) (i + 1)
        let adds :=
          if 2 ≤ padEnd - i ∧ padEnd < bytes.length ∧
              ¬ padByte (bytes.getD padEnd 0) then
            [base + padEnd]
          else []
        adds ++ padScanAux bytes base fuel padEnd
      else padScanAux bytes base fuel (i + 1)
    else []

/-- Addresses added by the call-target pass over the decoded instruction
stream (the capstone decoder is external; the pass is modelled as a fold over
its output).  State: (added addresses, call-target set, prevWasUnconditional).
Chunk-boundary resets of the flag only suppress additions and never lift the
range guards. -/
def callTargetAdds (decoded : List Instruction) (base endAddress : Nat) : List Nat :=
  (decoded.foldl
    (fun (st : List Nat × List Nat × Bool) insn =>
      let st1 :=
        if insn.mnemonic = "call" then
          match bareHexLiteral insn.opStr.data with
          | some target =>
            if base ≤ target ∧ target < endAddress then
              (st.1 ++ [target], setAdd st.2.1 target, st.2.2)
            else st
          | none => st
        else st
      let st2 :=
        if st1.2.2 ∧ insn.address ∈ st1.2.1 then
          (st1.1 ++ [insn.address], st1.2.1, st1.2.2)
        else st1
      let mn := insn.mnemonic
      (st2.1, st2.2.1, mn = "ret" ∨ mn = "retn" ∨ mn = "jmp"))
    ([], [], false)).1

/-- Size assignment of `detectFunctions`: each size is the distance to the
next address, the last extends to the section end. -/
def assignSizes (endAddress : Nat) : List DisasmFunction → List DisasmFunction
  | [] => []
  | [f] => [{ f with size := (endAddress : Int) - (f.address : Int) }]
  | f :: g :: rest =>
    { f with size := (g.address : Int) - (f.address : Int) } ::
      assignSizes endAddress (g :: rest)

/-- Entry-point phase of `detectFunctions`. -/
def detectEntryState (baseAddress endAddress : Nat) :
    Option Nat → List Nat × List (Nat × String)
  | some ep =>
    if baseAddress ≤ ep ∧ ep < endAddress then
      (setAdd [] ep, jsMapSet [] ep "entry_point")
    else ([], [])
  | none => ([], [])

/-- Export phase of `detectFunctions` (fold over the optional export list). -/
def detectExportsFold (baseAddress endAddress : Nat)
    (st1 : List Nat × List (Nat × String)) :
    Option (List ExportInfo) → List Nat × List (Nat × String)
  | some exps =>
    exps.foldl
      (fun (st : List Nat × List (Nat × String)) (exp : ExportInfo) =>
        if baseAddress ≤ exp.address ∧ exp.address < endAddress then
          (setAdd st.1 exp.address, jsMapSet st.2 exp.address exp.name)
        else st) st1
  | none => st1

/-- Entry-point and export phases of `detectFunctions`: address set together
with the name map. -/
def detectNameState (baseAddress : Nat) (endAddress : Nat) (options : DetectOptions) :
    List Nat × List (Nat × String) :=
  detectExportsFold baseAddress endAddress
    (detectEntryState baseAddress endAddress options.entryPoint) options.exports

/-- The complete address set of `detectFunctions` (entry point, exports,
prologue scan, alignment pads, call targets for sections under 2 MiB), in
insertion order. -/
def detectAddrs (bytes : List Nat) (baseAddress : Nat) (is64 : Bool)
    (options : DetectOptions) (decoded : List Instruction) : List Nat :=
  let len := bytes.length
  let endAddress := baseAddress + len
  let addrs2 := (detectNameState baseAddress endAddress options).1
  let addrs3 :=
    (List.range len).foldl
      (fun s i => if prologueHit bytes is64 i then setAdd s (baseAddress + i) else s)
      addrs2
  let addrs4 := (padScanAux bytes baseAddress len 0).foldl setAdd addrs3
  if len < 2 * 1024 * 1024 then
    (callTargetAdds decoded baseAddress endAddress).foldl setAdd addrs4
  else addrs4

/-- Function-record construction of `detectFunctions`: external name (when
present and non-empty, JS `||`) or `sub_<HEX>`; size starts at 0. -/
def mkDetectedFunction (nameMap : List (Nat × String)) (addr : Nat) : DisasmFunction :=
  let fallback := String.mk ("sub_".data ++ hexUpperChars addr)
  let nm :=
    match jsMapGet nameMap addr with
    | some s => if s.data.isEmpty then fallback else s
    | none => fallback
  { name := nm, address := addr, size := 0 }

/-- `detectFunctions` from the disassembly worker: the address set is sorted
ascending, each address is named (external name or `sub_<HEX>`), and tiling
sizes are assigned.  `decoded` stands for the external capstone decoding of
the section used by the call-target pass. -/
def detectFunctions (bytes : List Nat) (baseAddress : Nat) (is64 : Bool)
    (options : DetectOptions) (decoded : List Instruction) : List DisasmFunction :=
  let endAddress := baseAddress + bytes.length
  let nameMap := (detectNameState baseAddress endAddress options).2
  let sortedAddrs := sortByLe natLe (detectAddrs bytes baseAddress is64 options decoded)
  let functions := sortedAddrs.map (mkDetectedFunction nameMap)
  assignSizes endAddress functions

/-! ## PE data model (src/pe/types.ts, src/pe/constants.ts) -/

def IMAGE_DOS_SIGNATURE : Nat := 0x5a4d

def IMAGE_NT_SIGNATURE : Nat := 0x4550

def IMAGE_NT_OPTIONAL_HDR32_MAGIC : Nat := 0x10b

def IMAGE_NT_OPTIONAL_HDR64_MAGIC : Nat := 0x20b

def IMAGE_ORDINAL_FLAG32 : Nat := 0x80000000

def IMAGE_ORDINAL_FLAG64 : Nat := 0x8000000000000000

def IMAGE_DIRECTORY_ENTRY_EXPORT : Nat := 0

def IMAGE_DIRECTORY_ENTRY_IMPORT : Nat := 1

/-- DOS header (only the fields the parser keeps). -/
structure DOSHeader where
  e_magic : Nat
  e_lfanew : Nat
deriving DecidableEq

/-- COFF header. -/
structure COFFHeader where
  machine : Nat
  numberOfSections : Nat
  timeDateStamp : Nat
  pointerToSymbolTable : Nat
  numberOfSymbols : Nat
  sizeOfOptionalHeader : Nat
  characteristics : Nat
deriving DecidableEq

/-- PE32 optional header (all fields unsigned). -/
structure OptionalHeader32 where
  magic : Nat
  majorLinkerVersion : Nat
  minorLinkerVersion : Nat
  sizeOfCode : Nat
  sizeOfInitializedData : Nat
  sizeOfUninitializedData : Nat
  addressOfEntryPoint : Nat
  baseOfCode : Nat
  baseOfData : Nat
  imageBase : Nat
  sectionAlignment : Nat
  fileAlignment : Nat
  majorOperatingSystemVersion : Nat
  minorOperatingSystemVersion : Nat
  majorImageVersion : Nat
  minorImageVersion : Nat
  majorSubsystemVersion : Nat
  minorSubsystemVersion : Nat
  win32VersionValue : Nat
  sizeOfImage : Nat
  sizeOfHeaders : Nat
  checkSum : Nat
  subsystem : Nat
  dllCharacteristics : Nat
  sizeOfStackReserve : Nat
  sizeOfStackCommit : Nat
  sizeOfHeapReserve : Nat
  sizeOfHeapCommit : Nat
  loaderFlags : Nat
  numberOfRvaAndSizes : Nat
deriving DecidableEq

/-- PE32+ optional header (bigint fields widened to Nat, exact). -/
structure OptionalHeader64 where
  magic : Nat
  majorLinkerVersion : Nat
  minorLinkerVersion : Nat
  sizeOfCode : Nat
  sizeOfInitializedData : Nat
  sizeOfUninitializedData : Nat
  addressOfEntryPoint : Nat
  baseOfCode : Nat
  imageBase : Nat
  sectionAlignment : Nat
  fileAlignment : Nat
  majorOperatingSystemVersion : Nat
  minorOperatingSystemVersion : Nat
  majorImageVersion : Nat
  minorImageVersion : Nat
  majorSubsystemVersion : Nat
  minorSubsystemVersion : Nat
  win32VersionValue : Nat
  sizeOfImage : Nat
  sizeOfHeaders : Nat
  checkSum : Nat
  subsystem : Nat
  dllCharacteristics : Nat
  sizeOfStackReserve : Nat
  sizeOfStackCommit : Nat
  sizeOfHeapReserve : Nat
  sizeOfHeapCommit : Nat
  loaderFlags : Nat
  numberOfRvaAndSizes : Nat
deriving DecidableEq

/-- One data directory entry. -/
structure DataDirectory where
  virtualAddress : Nat
  size : Nat
deriving DecidableEq

/-- Section header. -/
structure SectionHeader where
  name : String
  virtualSize : Nat
  virtualAddress : Nat
  sizeOfRawData : Nat
  pointerToRawData : Nat
  pointerToRelocations : Nat
  pointerToLinenumbers : Nat
  numberOfRelocations : Nat
  numberOfLinenumbers : Nat
  characteristics : Nat
deriving DecidableEq

/-- Normalized optional header (the subset the viewer consumes; the PE32+
`Number(imageBase)` widening is modelled exactly in Nat). -/
structure NormalizedOptionalHeader where
  magic : Nat
  majorLinkerVersion : Nat
  minorLinkerVersion : Nat
  sizeOfCode : Nat
  addressOfEntryPoint : Nat
  baseOfCode : Nat
  imageBase : Nat
  sectionAlignment : Nat
  fileAlignment : Nat
  sizeOfImage : Nat
  sizeOfHeaders : Nat
  checksum : Nat
  subsystem : Nat
  dllCharacteristics : Nat
  numberOfRvaAndSizes : Nat
deriving DecidableEq

/-- Import entry as the captured parser produces it. -/
structure ImportEntry where
  libraryName : String
  functions : List String
deriving DecidableEq

/-- Export entry. -/
structure ExportEntry where
  name : String
  ordinal : Nat
  address : Nat
deriving DecidableEq

/-- Parsed PE file (the `buffer` field of the source aliases the input and is
not duplicated here). -/
structure PEFile where
  is64 : Bool
  dosHeader : DOSHeader
  coffHeader : COFFHeader
  optionalHeader : NormalizedOptionalHeader
  rawOptionalHeader : Sum OptionalHeader32 OptionalHeader64
  dataDirectories : List DataDirectory
  sections : List SectionHeader
  imports : List ImportEntry
  exports : List ExportEntry
  strings : List (Nat × String)
deriving DecidableEq

/-! ## DataView reads over the byte image -/

/-- Error message of an out-of-bounds DataView access. -/
def rangeErrMsg : String :=
  "RangeError: Offset is outside the bounds of the DataView"

/-- Little-endian u16 at an in-bounds offset. -/
def pureU16 (b : List Nat) (off : Nat) : Nat :=
  b.getD off 0 + b.getD (off + 1) 0 * 256

/-- Little-endian u32 at an in-bounds offset. -/
def pureU32 (b : List Nat) (off : Nat) : Nat :=
  b.getD off 0 + b.getD (off + 1) 0 * 256 + b.getD (off + 2) 0 * 65536 +
    b.getD (off + 3) 0 * 16777216

/-- Little-endian u64 at an in-bounds offset. -/
def pureU64 (b : List Nat) (off : Nat) : Nat :=
  pureU32 b off + pureU32 b (off + 4) * 4294967296

/-- `getUint8`, throwing RangeError when out of bounds. -/
def dvU8 (b : List Nat) (off : Nat) : Except String Nat :=
  if off + 1 ≤ b.length then Except.ok (b.getD off 0) else Except.error rangeErrMsg

/-- `getUint16(_, true)`, throwing RangeError when out of bounds. -/
def dvU16 (b : List Nat) (off : Nat) : Except String Nat :=
  if off + 2 ≤ b.length then Except.ok (pureU16 b off) else Except.error rangeErrMsg

/-- `getUint32(_, true)`, throwing RangeError when out of bounds. -/
def dvU32 (b : List Nat) (off : Nat) : Except String Nat :=
  if off + 4 ≤ b.length then Except.ok (pureU32 b off) else Except.error rangeErrMsg

/-- Lowercase hex digit. -/
def hexLowerDigit (n : Nat) : Char :=
  if n < 10 then Char.ofNat ('0'.toNat + n) else Char.ofNat ('a'.toNat + n - 10)

/-- Fuelled lowercase hex rendering (JS `toString(16)`). -/
def hexLowerAux : Nat → Nat → List Char
  | 0, _ => []
  | fuel + 1, n =>
    if n < 16 then [hexLowerDigit n]
    else hexLowerAux fuel (n / 16) ++ [hexLowerDigit (n % 16)]

/-- Lowercase hex string of a Nat. -/
def hexLowerStr (n : Nat) : String :=
  String.mk (hexLowerAux (n + 1) n)

/-- Decimal digit. -/
def decDigit (n : Nat) : Char :=
  Char.ofNat ('0'.toNat + n)

/-- Fuelled decimal rendering (JS template interpolation of a number). -/
def decimalAux : Nat → Nat → List Char
  | 0, _ => []
  | fuel + 1, n =>
    if n < 10 then [decDigit n]
    else decimalAux fuel (n / 10) ++ [decDigit (n % 10)]

/-- Decimal string of a Nat. -/
def decimalStr (n : Nat) : String :=
  String.mk (decimalAux (n + 1) n)

/-! ## PE parser (src/pe/parser.ts).  Each header parser performs the
DataView reads of the source; since every read of one header throws the same
RangeError on an out-of-bounds offset and the reads are dense up to the
header extent, the reads are modelled as one extent check followed by pure
in-bounds reads — observationally identical to the source's read-by-read
behaviour. -/

/-- `readCString`: null-terminated ASCII at `off`, up to `maxLength` bytes,
stopping at the buffer end. -/
def readCStringAux (b : List Nat) (off : Nat) : Nat → Nat → List Nat
  | _, 0 => []
  | i, fuel + 1 =>
    if off + i < b.length then
      let byte := b.getD (off + i) 0
      if byte = 0 then []
      else byte :: readCStringAux b off (i + 1) fuel
    else []

/-- `readCString` with the source's default `maxLength = 1024`. -/
def readCString (b : List Nat) (off : Nat) (maxLength : Nat := 1024) : String :=
  String.mk ((readCStringAux b off 0 maxLength).map Char.ofNat)

/-- `rvaToFileOffset`: first section containing the RVA, else the RVA
itself. -/
def rvaToFileOffset (rva : Nat) (sections : List SectionHeader) : Nat :=
  match sections.find?
      (fun s => decide (s.virtualAddress ≤ rva ∧ rva < s.virtualAddress + s.virtualSize)) with
  | some s => s.pointerToRawData + (rva - s.virtualAddress)
  | none => rva

/-- `parseDOSHeader`: DOS magic (checked before `e_lfanew` is read). -/
def parseDOSHeader (b : List Nat) : Except String DOSHeader :=
  if 2 ≤ b.length then
    let e_magic := pureU16 b 0
    if e_magic ≠ IMAGE_DOS_SIGNATURE then
      Except.error ("Invalid DOS signature: 0x" ++ hexLowerStr e_magic ++
        " (expected 0x5A4D)")
    else if 64 ≤ b.length then
      Except.ok { e_magic := e_magic, e_lfanew := pureU32 b 60 }
    else Except.error rangeErrMsg
  else Except.error rangeErrMsg

/-- `parseCOFFHeader` (20 bytes). -/
def parseCOFFHeader (b : List Nat) (off : Nat) : Except String COFFHeader :=
  if off + 20 ≤ b.length then
    Except.ok
      { machine := pureU16 b off,
        numberOfSections := pureU16 b (off + 2),
        timeDateStamp := pureU32 b (off + 4),
        pointerToSymbolTable := pureU32 b (off + 8),
        numberOfSymbols := pureU32 b (off + 12),
        sizeOfOptionalHeader := pureU16 b (off + 16),
        characteristics := pureU16 b (off + 18) }
  else Except.error rangeErrMsg

/-- `parseOptionalHeader32` (96 bytes). -/
def parseOptionalHeader32 (b : List Nat) (off : Nat) : Except String OptionalHeader32 :=
  if off + 96 ≤ b.length then
    Except.ok
      { magic := pureU16 b off,
        majorLinkerVersion := b.getD (off + 2) 0,
        minorLinkerVersion := b.getD (off + 3) 0,
        sizeOfCode := pureU32 b (off + 4),
        sizeOfInitializedData := pureU32 b (off + 8),
        sizeOfUninitializedData := pureU32 b (off + 12),
        addressOfEntryPoint := pureU32 b (off + 16),
        baseOfCode := pureU32 b (off + 20),
        baseOfData := pureU32 b (off + 24),
        imageBase := pureU32 b (off + 28),
        sectionAlignment := pureU32 b (off + 32),
        fileAlignment := pureU32 b (off + 36),
        majorOperatingSystemVersion := pureU16 b (off + 40),
        minorOperatingSystemVersion := pureU16 b (off + 42),
        majorImageVersion := pureU16 b (off + 44),
        minorImageVersion := pureU16 b (off + 46),
        majorSubsystemVersion := pureU16 b (off + 48),
        minorSubsystemVersion := pureU16 b (off + 50),
        win32VersionValue := pureU32 b (off + 52),
        sizeOfImage := pureU32 b (off + 56),
        sizeOfHeaders := pureU32 b (off + 60),
        checkSum := pureU32 b (off + 64),
        subsystem := pureU16 b (off + 68),
        dllCharacteristics := pureU16 b (off + 70),
        sizeOfStackReserve := pureU32 b (off + 72),
        sizeOfStackCommit := pureU32 b (off + 76),
        sizeOfHeapReserve := pureU32 b (off + 80),
        sizeOfHeapCommit := pureU32 b (off + 84),
        loaderFlags := pureU32 b (off + 88),
        numberOfRvaAndSizes := pureU32 b (off + 92) }
  else Except.error rangeErrMsg

/-- `parseOptionalHeader64` (112 bytes). -/
def parseOptionalHeader64 (b : List Nat) (off : Nat) : Except String OptionalHeader64 :=
  if off + 112 ≤ b.length then
    Except.ok
      { magic := pureU16 b off,
        majorLinkerVersion := b.getD (off + 2) 0,
        minorLinkerVersion := b.getD (off + 3) 0,
        sizeOfCode := pureU32 b (off + 4),
        sizeOfInitializedData := pureU32 b (off + 8),
        sizeOfUninitializedData := pureU32 b (off + 12),
        addressOfEntryPoint := pureU32 b (off + 16),
        baseOfCode := pureU32 b (off + 20),
        imageBase := pureU64 b (off + 24),
        sectionAlignment := pureU32 b (off + 32),
        fileAlignment := pureU32 b (off + 36),
        majorOperatingSystemVersion := pureU16 b (off + 40),
        minorOperatingSystemVersion := pureU16 b (off + 42),
        majorImageVersion := pureU16 b (off + 44),
        minorImageVersion := pureU16 b (off + 46),
        majorSubsystemVersion := pureU16 b (off + 48),
        minorSubsystemVersion := pureU16 b (off + 50),
        win32VersionValue := pureU32 b (off + 52),
        sizeOfImage := pureU32 b (off + 56),
        sizeOfHeaders := pureU32 b (off + 60),
        checkSum := pureU32 b (off + 64),
        subsystem := pureU16 b (off + 68),
        dllCharacteristics := pureU16 b (off + 70),
        sizeOfStackReserve := pureU64 b (off + 72),
        sizeOfStackCommit := pureU64 b (off + 80),
        sizeOfHeapReserve := pureU64 b (off + 88),
        sizeOfHeapCommit := pureU64 b (off + 96),
        loaderFlags := pureU32 b (off + 104),
        numberOfRvaAndSizes := pureU32 b (off + 108) }
  else Except.error rangeErrMsg

/-- `normalizeOptionalHeader`. -/
def normalizeOptionalHeader : Sum OptionalHeader32 OptionalHeader64 → NormalizedOptionalHeader
  | Sum.inl o =>
    { magic := o.magic, majorLinkerVersion := o.majorLinkerVersion,
      minorLinkerVersion := o.minorLinkerVersion, sizeOfCode := o.sizeOfCode,
      addressOfEntryPoint := o.addressOfEntryPoint, baseOfCode := o.baseOfCode,
      imageBase := o.imageBase, sectionAlignment := o.sectionAlignment,
      fileAlignment := o.fileAlignment, sizeOfImage := o.sizeOfImage,
      sizeOfHeaders := o.sizeOfHeaders, checksum := o.checkSum,
      subsystem := o.subsystem, dllCharacteristics := o.dllCharacteristics,
      numberOfRvaAndSizes := o.numberOfRvaAndSizes }
  | Sum.inr o =>
    { magic := o.magic, majorLinkerVersion := o.majorLinkerVersion,
      minorLinkerVersion := o.minorLinkerVersion, sizeOfCode := o.sizeOfCode,
      addressOfEntryPoint := o.addressOfEntryPoint, baseOfCode := o.baseOfCode,
      imageBase := o.imageBase, sectionAlignment := o.sectionAlignment,
      fileAlignment := o.fileAlignment, sizeOfImage := o.sizeOfImage,
      sizeOfHeaders := o.sizeOfHeaders, checksum := o.checkSum,
      subsystem := o.subsystem, dllCharacteristics := o.dllCharacteristics,
      numberOfRvaAndSizes := o.numberOfRvaAndSizes }

/-- `parseDataDirectories` loop (index `i`, remaining count): 8 bytes per
entry, RangeError past the buffer end. -/
def parseDataDirectoriesAux (b : List Nat) (off : Nat) :
    Nat → Nat → Except String (List DataDirectory)
  | _, 0 => Except.ok []
  | i, remaining + 1 =>
    if off + i * 8 + 8 ≤ b.length then
      match parseDataDirectoriesAux b off (i + 1) remaining with
      | Except.ok rest =>
        Except.ok
          ({ virtualAddress := pureU32 b (off + i * 8),
             size := pureU32 b (off + i * 8 + 4) } :: rest)
      | Except.error e => Except.error e
    else Except.error rangeErrMsg

/-- `parseDataDirectories`: reads `count` entries — the count is passed
through unclamped by `parsePE`. -/
def parseDataDirectories (b : List Nat) (off : Nat) (count : Nat) :
    Except String (List DataDirectory) :=
  parseDataDirectoriesAux b off 0 count

/-- `parseSectionHeaders` loop: 40 bytes per section, name bytes first, the
non-zero bytes of the 8-byte name field concatenated. -/
def parseSectionHeadersAux (b : List Nat) (off : Nat) :
    Nat → Nat → Except String (List SectionHeader)
  | _, 0 => Except.ok []
  | i, remaining + 1 =>
    let so := off + i * 40
    if so + 40 ≤ b.length then
      let nameBytes :=
        ([b.getD so 0, b.getD (so + 1) 0, b.getD (so + 2) 0, b.getD (so + 3) 0,
          b.getD (so + 4) 0, b.getD (so + 5) 0, b.getD (so + 6) 0,
          b.getD (so + 7) 0]).filter (fun x => x ≠ 0)
      match parseSectionHeadersAux b off (i + 1) remaining with
      | Except.ok rest =>
        Except.ok
          ({ name := String.mk (nameBytes.map Char.ofNat),
             virtualSize := pureU32 b (so + 8),
             virtualAddress := pureU32 b (so + 12),
             sizeOfRawData := pureU32 b (so + 16),
             pointerToRawData := pureU32 b (so + 20),
             pointerToRelocations := pureU32 b (so + 24),
             pointerToLinenumbers := pureU32 b (so + 28),
             numberOfRelocations := pureU16 b (so + 32),
             numberOfLinenumbers := pureU16 b (so + 34),
             characteristics := pureU32 b (so + 36) } :: rest)
      | Except.error e => Except.error e
    else Except.error rangeErrMsg

/-- `parseSectionHeaders`. -/
def parseSectionHeaders (b : List Nat) (off : Nat) (count : Nat) :
    Except String (List SectionHeader) :=
  parseSectionHeadersAux b off 0 count

/-- Import-descriptor record kept internally (the captured parser discards
`firstThunk` when it builds an `ImportEntry`). -/
structure ImportDescEntry where
  libraryName : String
  functions : List String
  firstThunk : Nat
deriving DecidableEq

/-- Thunk walk of `parseImports`: 4- or 8-byte thunks until a zero thunk or
the buffer end; ordinal-flagged thunks yield `Ordinal_<n>`, others read the
hint/name entry (skipping the 2-byte hint) when `nameTableOffset + 2` is
strictly below the buffer end — otherwise the name is skipped.  All reads
are inside the `thunkOffset + thunkSize <= byteLength` guard.  Fuel bounds
the walk; the offset advances by the thunk size every step, so fuel equal to
the byte count plus one always suffices. -/
def parseThunksAux (b : List Nat) (sections : List SectionHeader) (is64 : Bool) :
    Nat → Nat → List String
  | 0, _ => []
  | fuel + 1, thunkOffset =>
    let thunkSize := if is64 then 8 else 4
    if thunkOffset + thunkSize ≤ b.length then
      let thunkValue := if is64 then pureU64 b thunkOffset else pureU32 b thunkOffset
      if thunkValue = 0 then []
      else
        let ordinalFlag := if is64 then IMAGE_ORDINAL_FLAG64 else IMAGE_ORDINAL_FLAG32
        let entry :=
          if Nat.land thunkValue ordinalFlag ≠ 0 then
            let ordinal := Nat.land thunkValue 0xFFFF
            [String.mk ("Ordinal_".data ++ (decimalStr ordinal).data)]
          else
            let nameTableRVA := thunkValue
            let nameTableOffset := rvaToFileOffset nameTableRVA sections
            if nameTableOffset + 2 < b.length then
              [readCString b (nameTableOffset + 2)]
            else []
        entry ++ parseThunksAux b sections is64 fuel (thunkOffset + thunkSize)
    else []

/-- Descriptor walk of `parseImports`: 20-byte descriptors until an all-zero
descriptor or the buffer end; a descriptor whose name offset is out of range
is skipped.  The unused `timeDateStamp` / `forwarderChain` reads of the
source are inside the same guard and have no effect.  Fuel bounds the walk
(the offset advances by 20 every step). -/
def parseImportDescriptorsAux (b : List Nat) (sections : List SectionHeader)
    (is64 : Bool) : Nat → Nat → List ImportDescEntry
  | 0, _ => []
  | fuel + 1, descriptorOffset =>
    if descriptorOffset + 20 ≤ b.length then
      let originalFirstThunk := pureU32 b descriptorOffset
      let nameRVA := pureU32 b (descriptorOffset + 12)
      let firstThunk := pureU32 b (descriptorOffset + 16)
      if originalFirstThunk = 0 ∧ nameRVA = 0 ∧ firstThunk = 0 then []
      else
        let nameOffset := rvaToFileOffset nameRVA sections
        if b.length ≤ nameOffset then
          parseImportDescriptorsAux b sections is64 fuel (descriptorOffset + 20)
        else
          let libraryName := readCString b nameOffset
          let thunkRVA := if originalFirstThunk ≠ 0 then originalFirstThunk else firstThunk
          let functions :=
            if thunkRVA ≠ 0 then
              parseThunksAux b sections is64 (b.length + 1) (rvaToFileOffset thunkRVA sections)
            else []
          { libraryName := libraryName, functions := functions, firstThunk := firstThunk } ::
            parseImportDescriptorsAux b sections is64 fuel (descriptorOffset + 20)
    else []

/-- `parseImports` from the captured parser: returns library names and
function-name lists only (no IAT addresses are computed). -/
def parseImports (b : List Nat) (importDir : DataDirectory)
    (sections : List SectionHeader) (is64 : Bool) : List ImportEntry :=
  if importDir.virtualAddress = 0 ∨ importDir.size = 0 then []
  else
    let importTableOffset := rvaToFileOffset importDir.virtualAddress sections
    if b.length ≤ importTableOffset then []
    else
      (parseImportDescriptorsAux b sections is64 (b.length + 1) importTableOffset).map
        (fun e => { libraryName := e.libraryName, functions := e.functions })

/-- Name-pointer walk of `parseExports` (index `i`, remaining count);
malformed entries are skipped. -/
def parseExportsAux (b : List Nat) (sections : List SectionHeader)
    (addressTableOffset namePointerOffset ordinalTableOffset : Nat) :
    Nat → Nat → List ExportEntry
  | 0, _ => []
  | remaining + 1, i =>
    let namePointerPos := namePointerOffset + i * 4
    let ordinalPos := ordinalTableOffset + i * 2
    if b.length < namePointerPos + 4 ∨ b.length < ordinalPos + 2 then
      parseExportsAux b sections addressTableOffset namePointerOffset ordinalTableOffset
        remaining (i + 1)
    else
      let nameRVA := pureU32 b namePointerPos
      let ordinal := pureU16 b ordinalPos
      let nameOffset := rvaToFileOffset nameRVA sections
      if b.length ≤ nameOffset then
        parseExportsAux b sections addressTableOffset namePointerOffset ordinalTableOffset
          remaining (i + 1)
      else
        let name := readCString b nameOffset
        let addressPos := addressTableOffset + ordinal * 4
        if b.length < addressPos + 4 then
          parseExportsAux b sections addressTableOffset namePointerOffset ordinalTableOffset
            remaining (i + 1)
        else
          { name := name, ordinal := ordinal, address := pureU32 b addressPos } ::
            parseExportsAux b sections addressTableOffset namePointerOffset ordinalTableOffset
              remaining (i + 1)

/-- `parseExports`. -/
def parseExports (b : List Nat) (exportDir : DataDirectory)
    (sections : List SectionHeader) : List ExportEntry :=
  if exportDir.virtualAddress = 0 ∨ exportDir.size = 0 then []
  else
    let exportTableOffset := rvaToFileOffset exportDir.virtualAddress sections
    if b.length < exportTableOffset + 40 then []
    else
      let numberOfNames := pureU32 b (exportTableOffset + 24)
      let addressTableRVA := pureU32 b (exportTableOffset + 28)
      let namePointerRVA := pureU32 b (exportTableOffset + 32)
      let ordinalTableRVA := pureU32 b (exportTableOffset + 36)
      parseExportsAux b sections (rvaToFileOffset addressTableRVA sections)
        (rvaToFileOffset namePointerRVA sections)
        (rvaToFileOffset ordinalTableRVA sections) numberOfNames 0

/-- Printable-ASCII byte ([0x20, 0x7E]). -/
def printableAscii (v : Nat) : Bool :=
  decide (0x20 ≤ v ∧ v ≤ 0x7e)

/-- Maximal printable run from position `i` (the inner while of
`extractStrings`; a 0 byte and any non-printable byte both terminate). -/
def takePrintableRun (b : List Nat) (endP : Nat) : Nat → Nat → List Nat
  | 0, _ => []
  | fuel + 1, i =>
    if i < endP then
      let v := b.getD i 0
      if printableAscii v then v :: takePrintableRun b endP fuel (i + 1) else []
    else []

/-- ASCII sweep of `extractStrings`: emit (RVA, string) for every printable
run of at least `minLength` bytes; the outer position resumes one past the
run's terminator.  Fuel bounds the walk (position strictly increases). -/
def asciiScanAux (b : List Nat) (endP : Nat) (rdata : SectionHeader)
    (minLength : Nat) : Nat → Nat → List (Nat × String)
  | 0, _ => []
  | fuel + 1, i =>
    if i < endP then
      let byte := b.getD i 0
      if printableAscii byte then
        let chars := takePrintableRun b endP (endP - i) i
        let entry :=
          if minLength ≤ chars.length then
            [(rdata.virtualAddress + (i - rdata.pointerToRawData),
              String.mk (chars.map Char.ofNat))]
          else []
        entry ++ asciiScanAux b endP rdata minLength fuel (i + chars.length + 1)
      else asciiScanAux b endP rdata minLength fuel (i + 1)
    else []

/-- The section `extractStrings` sweeps: first section named `.rdata`,
`.data` or `.rodata`. -/
def findRdataSection (sections : List SectionHeader) : Option SectionHeader :=
  sections.find?
    (fun s => decide (s.name = ".rdata" ∨ s.name = ".data" ∨ s.name = ".rodata"))

/-- `extractStrings` from the captured parser: ASCII only, keyed by RVA. -/
def extractStrings (b : List Nat) (sections : List SectionHeader)
    (minLength : Nat := 4) : List (Nat × String) :=
  match findRdataSection sections with
  | none => []
  | some rdata =>
    let start := rdata.pointerToRawData
    let endP := min (start + rdata.sizeOfRawData) b.length
    (asciiScanAux b endP rdata minLength (b.length + 1) start).foldl
      (fun m p => jsMapSet m p.1 p.2) []

/-- The tail of `parsePE` once the optional header is parsed: data
directories (count passed through unclamped), section headers, imports,
exports and strings. -/
def parsePETail (b : List Nat) (dosHeader : DOSHeader) (coffHeader : COFFHeader)
    (rawOpt : Sum OptionalHeader32 OptionalHeader64) (is64 : Bool)
    (optionalHeaderOffset dataDirectoriesOffset : Nat) : Except String PEFile :=
  match parseDataDirectories b dataDirectoriesOffset
      (normalizeOptionalHeader rawOpt).numberOfRvaAndSizes with
  | Except.error e => Except.error e
  | Except.ok dataDirectories =>
    let sectionHeadersOffset := optionalHeaderOffset + coffHeader.sizeOfOptionalHeader
    match parseSectionHeaders b sectionHeadersOffset coffHeader.numberOfSections with
    | Except.error e => Except.error e
    | Except.ok sections =>
      let imports := parseImports b
        ((dataDirectories.get? IMAGE_DIRECTORY_ENTRY_IMPORT).getD
          { virtualAddress := 0, size := 0 }) sections is64
      let exports := parseExports b
        ((dataDirectories.get? IMAGE_DIRECTORY_ENTRY_EXPORT).getD
          { virtualAddress := 0, size := 0 }) sections
      let strings := extractStrings b sections
      Except.ok
        { is64 := is64, dosHeader := dosHeader, coffHeader := coffHeader,
          optionalHeader := normalizeOptionalHeader rawOpt,
          rawOptionalHeader := rawOpt, dataDirectories := dataDirectories,
          sections := sections, imports := imports, exports := exports,
          strings := strings }

/-- `parsePE`: DOS header, PE signature, COFF header, optional header by
magic, then the tail phases. -/
def parsePE (b : List Nat) : Except String PEFile :=
  match parseDOSHeader b with
  | Except.error e => Except.error e
  | Except.ok dosHeader =>
    let peOffset := dosHeader.e_lfanew
    if b.length < peOffset + 4 then Except.error "Invalid PE offset"
    else
      let peSignature := pureU32 b peOffset
      if peSignature ≠ IMAGE_NT_SIGNATURE then
        Except.error ("Invalid PE signature: 0x" ++ hexLowerStr peSignature ++
          " (expected 0x4550)")
      else
        let coffOffset := peOffset + 4
        match parseCOFFHeader b coffOffset with
        | Except.error e => Except.error e
        | Except.ok coffHeader =>
          let optionalHeaderOffset := coffOffset + 20
          match dvU16 b optionalHeaderOffset with
          | Except.error e => Except.error e
          | Except.ok magic =>
            if magic = IMAGE_NT_OPTIONAL_HDR64_MAGIC then
              match parseOptionalHeader64 b optionalHeaderOffset with
              | Except.error e => Except.error e
              | Except.ok o =>
                parsePETail b dosHeader coffHeader (Sum.inr o) true
                  optionalHeaderOffset (optionalHeaderOffset + 112)
            else if magic = IMAGE_NT_OPTIONAL_HDR32_MAGIC then
              match parseOptionalHeader32 b optionalHeaderOffset with
              | Except.error e => Except.error e
              | Except.ok o =>
                parsePETail b dosHeader coffHeader (Sum.inl o) false
                  optionalHeaderOffset (optionalHeaderOffset + 96)
            else
              Except.error ("Invalid optional header magic: 0x" ++ hexLowerStr magic)

/-! ## Concrete images for the parser claims -/

/-- n zero bytes. -/
def zeroBytes (n : Nat) : List Nat :=
  List.replicate n 0

/-- Little-endian bytes of a u16. -/
def u16bytes (v : Nat) : List Nat :=
  [v % 256, v / 256 % 256]

/-- Little-endian bytes of a u32. -/
def u32bytes (v : Nat) : List Nat :=
  [v % 256, v / 256 % 256, v / 65536 % 256, v / 16777216 % 256]

/-- A 224-byte PE32 image with one section header whose raw range
(pointerToRawData 0x200 + sizeOfRawData 0x10000) escapes the image. -/
def cexImageC1 : List Nat :=
  [0x4D, 0x5A] ++ zeroBytes 58 ++ u32bytes 64 ++
  u32bytes 0x4550 ++
  (u16bytes 0 ++ u16bytes 1 ++ zeroBytes 12 ++ u16bytes 96 ++ u16bytes 0) ++
  (u16bytes 0x10B ++ zeroBytes 94) ++
  (zeroBytes 8 ++ u32bytes 0x1000 ++ u32bytes 0x1000 ++ u32bytes 0x10000 ++
    u32bytes 0x200 ++ zeroBytes 16)

/-- A 320-byte PE32 image with numberOfRvaAndSizes = 17 and room for all 17
data-directory entries (sizeOfOptionalHeader 232, no sections). -/
def cexImageC6 : List Nat :=
  [0x4D, 0x5A] ++ zeroBytes 58 ++ u32bytes 64 ++
  u32bytes 0x4550 ++
  (u16bytes 0 ++ u16bytes 0 ++ zeroBytes 12 ++ u16bytes 232 ++ u16bytes 0) ++
  (u16bytes 0x10B ++ zeroBytes 90 ++ u32bytes 17) ++
  zeroBytes 136

/-- Bounds for the data-directory table and the section-header table: the
only constraints the parser tail imposes. -/
def ddSecOk (b : List Nat) (ddOff count shOff nsec : Nat) : Bool :=
  (decide (count = 0) || decide (ddOff + count * 8 ≤ b.length)) &&
  (decide (nsec = 0) || decide (shOff + nsec * 40 ≤ b.length))

/-- The exact success condition of `parsePE`: signatures, magic, and header
extents only.  No condition mentions a section's pointerToRawData or
sizeOfRawData — raw ranges are never checked. -/
def parseHeadersOk (b : List Nat) : Bool :=
  decide (2 ≤ b.length) && decide (pureU16 b 0 = IMAGE_DOS_SIGNATURE) &&
  decide (64 ≤ b.length) &&
  (let peOffset := pureU32 b 60
   (!decide (b.length < peOffset + 4)) &&
   decide (pureU32 b peOffset = IMAGE_NT_SIGNATURE) &&
   decide (peOffset + 4 + 20 ≤ b.length) &&
   (let optOffset := peOffset + 4 + 20
    decide (optOffset + 2 ≤ b.length) &&
    (let magic := pureU16 b optOffset
     let shOff := optOffset + pureU16 b (peOffset + 4 + 16)
     let nsec := pureU16 b (peOffset + 4 + 2)
     if magic = IMAGE_NT_OPTIONAL_HDR64_MAGIC then
       decide (optOffset + 112 ≤ b.length) &&
       ddSecOk b (optOffset + 112) (pureU32 b (optOffset + 108)) shOff nsec
     else if magic = IMAGE_NT_OPTIONAL_HDR32_MAGIC then
       decide (optOffset + 96 ≤ b.length) &&
       ddSecOk b (optOffset + 96) (pureU32 b (optOffset + 92)) shOff nsec
     else false)))

/-- The shipped ImportEntry shape consumed by `buildIATLookup` and by the
views of imports: library name, function names, and the ordered IAT
addresses. -/
structure ImportEntryIat where
  libraryName : String
  functions : List String
  iatAddresses : List Nat
deriving DecidableEq

/-- Modelled from the spec: the IAT VA of the j-th imported function of a
descriptor is imageBase + firstThunk + j * thunkSize, in function order. -/
def importIatAddresses (imageBase firstThunk thunkSize n : Nat) : List Nat :=
  (List.range n).map (fun j => imageBase + firstThunk + j * thunkSize)

/-- Modelled from the spec: the import entry built from a parsed descriptor.
The IAT VAs are preserved in order, one per function name. -/
def mkImportEntryIat (imageBase : Nat) (is64 : Bool) (d : ImportDescEntry) :
    ImportEntryIat :=
  { libraryName := d.libraryName,
    functions := d.functions,
    iatAddresses :=
      importIatAddresses imageBase d.firstThunk (if is64 then 8 else 4)
        d.functions.length }

/-- Inner loop of `buildIATLookup`: the index runs over the function list and
each guarded write consumes the next IAT address.  Once the address list is
exhausted the guard i < iatAddresses.length fails for every remaining index,
so recursing on both lists and stopping at either end is the same loop. -/
def buildIATLookupEntry (lib : String) :
    List (Nat × IatEntry) → List Nat → List String → List (Nat × IatEntry)
  | m, _, [] => m
  | m, [], _ :: _ => m
  | m, a :: as, f :: fs =>
    buildIATLookupEntry lib (jsMapSet m a { lib := lib, func := f }) as fs

/-- `buildIATLookup` from the worker: for each import and each function index
below both list lengths, map.set(iatAddresses[i], (lib, functions[i])). -/
def buildIATLookup (imports : List ImportEntryIat) : List (Nat × IatEntry) :=
  imports.foldl
    (fun m imp => buildIATLookupEntry imp.libraryName m imp.iatAddresses imp.functions)
    []

/-- The write sequence of `buildIATLookup`: the pair
(iatAddresses[j], (lib, functions[j])) for each import and each index j below
both list lengths, in order. -/
def iatWrites (imports : List ImportEntryIat) : List (Nat × IatEntry) :=
  imports.flatMap (fun imp =>
    (imp.iatAddresses.zip imp.functions).map
      (fun p => (p.1, { lib := imp.libraryName, func := p.2 })))

/-- Import-table bytes for a one-descriptor image: descriptor at offset 0
(INT at 48, name at 40, firstThunk 4096), null descriptor at 20, library
name K32 at 40, one name thunk pointing at the hint/name entry Fn at 56. -/
def c2Bytes : List Nat :=
  u32bytes 48 ++ zeroBytes 8 ++ u32bytes 40 ++ u32bytes 4096 ++
  zeroBytes 20 ++
  [0x4B, 0x33, 0x32, 0] ++ zeroBytes 4 ++
  u32bytes 56 ++ u32bytes 0 ++
  [0, 0, 0x46, 0x6E, 0]

/-- String-encoding tag of the shipped stringTypes map
(ascii or utf16le). -/
inductive StringEncoding where
  | ascii
  | utf16le
deriving DecidableEq

/-- A valid UTF-16LE pair at byte position j: both bytes inside the window,
printable low byte, zero high byte. -/
def utf16PairOk (b : List Nat) (endP j : Nat) : Bool :=
  decide (j + 1 < endP) && printableAscii (b.getD j 0) &&
    decide (b.getD (j + 1) 0 = 0)

/-- Modelled from the spec: maximal run of UTF-16LE low bytes from byte
position i — pairs (low, 0x00) with printable low; a (0,0) pair, a
non-printable low byte, a non-zero high byte or the window end terminates
the run.  Fuel bounds the walk (the position advances by 2 each step). -/
def takeUtf16Run (b : List Nat) (endP : Nat) : Nat → Nat → List Nat
  | 0, _ => []
  | fuel + 1, i =>
    if utf16PairOk b endP i then b.getD i 0 :: takeUtf16Run b endP fuel (i + 2)
    else []

/-- Modelled from the spec: sweep for UTF-16LE strings — emit
(start VA, string of low bytes) for every run of at least minLength pairs;
the position resumes past the run and its terminating pair, and otherwise
advances pairwise. -/
def utf16ScanAux (b : List Nat) (endP : Nat) (rdata : SectionHeader)
    (minLength : Nat) : Nat → Nat → List (Nat × String)
  | 0, _ => []
  | fuel + 1, i =>
    if utf16PairOk b endP i then
      let chars := takeUtf16Run b endP (endP - i) i
      let entry :=
        if minLength ≤ chars.length then
          [(rdata.virtualAddress + (i - rdata.pointerToRawData),
            String.mk (chars.map Char.ofNat))]
        else []
      entry ++ utf16ScanAux b endP rdata minLength fuel (i + 2 * chars.length + 2)
    else utf16ScanAux b endP rdata minLength fuel (i + 2)

/-- Modelled from the spec: extract_strings returns the VA-to-string map and
the VA-to-encoding map — the ASCII sweep of the captured extractStrings plus
the UTF-16LE sweep over the same window, each string keyed by its start VA,
the encoding tag written under the same key in the same order. -/
def extractStringsWithEncoding (b : List Nat) (sections : List SectionHeader)
    (minLength : Nat) :
    List (Nat × String) × List (Nat × StringEncoding) :=
  match findRdataSection sections with
  | none => ([], [])
  | some rdata =>
    let start := rdata.pointerToRawData
    let endP := min (start + rdata.sizeOfRawData) b.length
    let asciiEntries := asciiScanAux b endP rdata minLength (b.length + 1) start
    let utf16Entries := utf16ScanAux b endP rdata minLength (b.length + 1) start
    ((asciiEntries ++ utf16Entries).foldl (fun m p => jsMapSet m p.1 p.2) [],
     (asciiEntries.map (fun p => (p.1, StringEncoding.ascii)) ++
        utf16Entries.map (fun p => (p.1, StringEncoding.utf16le))).foldl
       (fun m p => jsMapSet m p.1 p.2) [])

/-- Strings-section bytes: UTF-16LE Wide at offset 0 (four (low, 0) pairs
terminated by (0,0)), ASCII Text at offset 10. -/
def c3Bytes : List Nat :=
  [0x57, 0, 0x69, 0, 0x64, 0, 0x65, 0, 0, 0, 0x54, 0x65, 0x78, 0x74, 0]

/-- A single .rdata section covering c3Bytes, mapped at VA 0x2000. -/
def c3Section : SectionHeader :=
  { name := ".rdata", virtualSize := 15, virtualAddress := 0x2000,
    sizeOfRawData := 15, pointerToRawData := 0, pointerToRelocations := 0,
    pointerToLinenumbers := 0, numberOfRelocations := 0,
    numberOfLinenumbers := 0, characteristics := 0x40000040 }

/-! ## Theorems -/

example :
    buildTypedXrefMap
      [{ address := 0x1000, bytes := [], mnemonic := "lea",
         opStr := "rax, [rip + 0x10]", size := 7 }] =
      [(0x1017, [⟨0x1000, XrefType.data⟩])] := by decide

example :
    buildTypedXrefMap
      [{ address := 0x1000, bytes := [], mnemonic := "push",
         opStr := "0x401000", size := 5 }] = [] := by decide

example : scanHexLiterals "mov eax, 0x401000".data = [0x401000] := by decide

theorem mem_conditionalJumps_startsWithJ {mn : String} (h : mn ∈ conditionalJumps) :
    startsWithJ mn = true := by
  have hall : conditionalJumps.all startsWithJ = true := by decide
  exact List.all_eq_true.mp hall mn h

theorem processXrefInsn_bare_noncontrol (m : List (Int × List Xref)) (i : Instruction)
    (h1 : i.mnemonic ≠ "call") (h2 : i.mnemonic ≠ "jmp")
    (h3 : startsWithJ i.mnemonic = false)
    (h4 : (bareHexLiteral i.opStr.data).isSome) :
    processXrefInsn m i = m := by
  obtain ⟨v, hv⟩ := Option.isSome_iff_exists.mp h4
  have hcond : ¬ (conditionalJumps.contains i.mnemonic = true ∨ startsWithJ i.mnemonic = true) := by
    rintro (hc | hs)
    · have := mem_conditionalJumps_startsWithJ (List.elem_iff.mp hc)
      rw [h3] at this
      exact Bool.false_ne_true this
    · rw [h3] at hs
      exact Bool.false_ne_true hs
  unfold processXrefInsn
  rw [hv]
  simp only [if_neg h1, if_neg h2, if_neg hcond]

theorem addXref_pred {P : Int → Xref → Prop} {m : List (Int × List Xref)} {t : Int} {x : Xref}
    (hm : ∀ p ∈ m, ∀ y ∈ p.2, P p.1 y) (hx : P t x) :
    ∀ p ∈ addXref m t x, ∀ y ∈ p.2, P p.1 y := by
  unfold addXref
  split
  · intro p hp y hy
    rw [List.mem_map] at hp
    obtain ⟨q, hq, rfl⟩ := hp
    by_cases h : q.1 = t
    · rw [if_pos h] at hy ⊢
      rcases List.mem_append.mp hy with h1 | h1
      · exact hm q hq y h1
      · rw [List.mem_singleton.mp h1]
        show P q.1 x
        rw [h]
        exact hx
    · rw [if_neg h] at hy ⊢
      exact hm q hq y hy
  · intro p hp y hy
    rcases List.mem_append.mp hp with h1 | h1
    · exact hm p h1 y hy
    · have hp2 : p = (t, [x]) := List.mem_singleton.mp h1
      subst hp2
      have hyx : y = x := List.mem_singleton.mp hy
      subst hyx
      exact hx

theorem absHexFold_pred {P : Int → Xref → Prop} (addr : Nat)
    (hP : ∀ a : Nat, 0x10000 < a → P (Int.ofNat a) ⟨Int.ofNat addr, XrefType.data⟩) :
    ∀ (hexes : List Nat) (m : List (Int × List Xref)),
      (∀ p ∈ m, ∀ y ∈ p.2, P p.1 y) →
      ∀ p ∈ hexes.foldl
          (fun acc a =>
            if 0x10000 < a then
              addXref acc (Int.ofNat a) ⟨Int.ofNat addr, XrefType.data⟩
            else acc) m,
        ∀ y ∈ p.2, P p.1 y := by
  intro hexes
  induction hexes with
  | nil => intro m hm; simpa using hm
  | cons a rest ih =>
    intro m hm
    simp only [List.foldl_cons]
    by_cases h : 0x10000 < a
    · rw [if_pos h]
      exact ih _ (addXref_pred hm (hP a h))
    · rw [if_neg h]
      exact ih m hm

theorem processXrefInsn_dataOk {full : List Instruction} {m : List (Int × List Xref)}
    {i : Instruction} (hi : i ∈ full)
    (hm : ∀ p ∈ m, ∀ y ∈ p.2, dataXrefOk full p.1 y) :
    ∀ p ∈ processXrefInsn m i, ∀ y ∈ p.2, dataXrefOk full p.1 y := by
  cases hbare : bareHexLiteral i.opStr.data with
  | some target =>
    simp only [processXrefInsn, hbare]
    by_cases h1 : i.mnemonic = "call"
    · rw [if_pos h1]
      exact addXref_pred hm (by intro hc; cases hc)
    · rw [if_neg h1]
      by_cases h2 : i.mnemonic = "jmp"
      · rw [if_pos h2]
        exact addXref_pred hm (by intro hc; cases hc)
      · rw [if_neg h2]
        by_cases h3 : conditionalJumps.contains i.mnemonic = true ∨ startsWithJ i.mnemonic = true
        · rw [if_pos h3]
          exact addXref_pred hm (by intro hc; cases hc)
        · rw [if_neg h3]
          exact hm
  | none =>
    cases hrip : findRip i.opStr.data with
    | some pr =>
      obtain ⟨isPlus, disp⟩ := pr
      simp only [processXrefInsn, hbare, hrip]
      refine addXref_pred hm ?_
      intro _
      right
      exact ⟨i, hi, rfl, hbare, isPlus, disp, hrip, rfl⟩
    | none =>
      simp only [processXrefInsn, hbare, hrip]
      by_cases hnc : i.mnemonic ≠ "call" ∧ i.mnemonic ≠ "jmp" ∧ ¬ startsWithJ i.mnemonic = true
      · rw [if_pos hnc]
        refine absHexFold_pred i.address ?_ _ m hm
        intro a ha hc
        refine Or.inl ?_
        rw [Int.ofNat_eq_natCast]
        exact_mod_cast ha
      · rw [if_neg hnc]
        exact hm

theorem buildTypedXrefMap_fold_inv {full : List Instruction} :
    ∀ (l : List Instruction) (m : List (Int × List Xref)),
      (∀ i ∈ l, i ∈ full) →
      (∀ p ∈ m, ∀ y ∈ p.2, dataXrefOk full p.1 y) →
      ∀ p ∈ l.foldl processXrefInsn m, ∀ y ∈ p.2, dataXrefOk full p.1 y := by
  intro l
  induction l with
  | nil => intro m _ hm; simpa using hm
  | cons i rest ih =>
    intro m hl hm
    simp only [List.foldl_cons]
    exact ih _ (fun j hj => hl j (List.mem_cons_of_mem i hj))
      (processXrefInsn_dataOk (hl i (List.mem_cons_self i rest)) hm)

/-- C10: for an instruction whose mnemonic is not call, not jmp, and does not
start with the letter j, and whose operand string is a single bare hex
literal, `buildTypedXrefMap` records no xref at all for that instruction:
the bare-literal branch consumes the instruction (`continue`) before the
data-xref branch can run. -/
theorem C10_bare_hex_noncontrol_no_xref (pre post : List Instruction) (i : Instruction)
    (h1 : i.mnemonic ≠ "call") (h2 : i.mnemonic ≠ "jmp")
    (h3 : startsWithJ i.mnemonic = false)
    (h4 : (bareHexLiteral i.opStr.data).isSome) :
    buildTypedXrefMap (pre ++ i :: post) = buildTypedXrefMap (pre ++ post) := by
  unfold buildTypedXrefMap
  rw [List.foldl_append, List.foldl_append, List.foldl_cons,
      processXrefInsn_bare_noncontrol _ i h1 h2 h3 h4]

/-- Witness for C10: `push 0x401000` produces no xref whatsoever, despite the
literal exceeding 0x10000. -/
theorem C10_witness :
    buildTypedXrefMap
      [{ address := 0x1000, bytes := [], mnemonic := "push",
         opStr := "0x401000", size := 5 }] = [] := by
  have h := C10_bare_hex_noncontrol_no_xref [] []
      { address := 0x1000, bytes := [], mnemonic := "push",
        opStr := "0x401000", size := 5 }
      (by decide) (by decide) (by decide) (by decide)
  simpa using h

/-- C7 counterexample: the claim that every data xref targets a VA above
0x10000 is false: a RIP-relative operand on a non-control instruction, for
example `lea rax, [rip + 0x10]` at VA 0x1000 with size 7, records a data xref
to 0x1017 ≤ 0x10000 (no lower-bound guard exists on the RIP branch). -/
theorem C7_counterexample :
    ¬ (∀ (insns : List Instruction), ∀ p ∈ buildTypedXrefMap insns, ∀ x ∈ p.2,
        x.type = XrefType.data → 0x10000 < p.1) := by
  intro h
  have hmem : ((0x1017 : Int),
      [({ fromAddr := 0x1000, type := XrefType.data } : Xref)]) ∈
      buildTypedXrefMap
        [{ address := 0x1000, bytes := [], mnemonic := "lea",
           opStr := "rax, [rip + 0x10]", size := 7 }] := by decide
  have hlt := h _ _ hmem { fromAddr := 0x1000, type := XrefType.data } (by decide) rfl
  exact absurd hlt (by decide)

/-- C7 (amended): every data xref recorded by `buildTypedXrefMap` either
targets a VA strictly above 0x10000 (the absolute-hex-literal branch, which
is guarded) or originates from the RIP-relative branch of some instruction of
the stream, whose target `address + size ± disp` carries no lower bound. -/
theorem C7_data_xref_amended (insns : List Instruction) :
    ∀ p ∈ buildTypedXrefMap insns, ∀ x ∈ p.2, dataXrefOk insns p.1 x :=
  buildTypedXrefMap_fold_inv insns [] (fun _ h => h)
    (by intro p hp; exact absurd hp (List.not_mem_nil p))

/-- Witness for the amended C7 at the concrete RIP-relative example. -/
theorem C7_witness :
    dataXrefOk
      [{ address := 0x1000, bytes := [], mnemonic := "lea",
         opStr := "rax, [rip + 0x10]", size := 7 }]
      0x1017 { fromAddr := 0x1000, type := XrefType.data } :=
  C7_data_xref_amended _ (0x1017, [⟨0x1000, XrefType.data⟩]) (by decide)
    ⟨0x1000, XrefType.data⟩ (by decide)

/-- C4 counterexample: with the RIP-relative target 0x1107 present in the IAT
map and the absolute immediate 0x100 present in the string map, the claim
says the comment is the lib!func annotation, but `mapInsn` answers with the
string: the string-map block (RIP then absolute) runs before any IAT lookup. -/
theorem C4_counterexample :
    (mapInsn [((0x100 : Int), "hi")]
        [((0x1107 : Int), ⟨"kernel32.dll", "LoadLibraryA"⟩)]
        { address := 0x1000, bytes := [], mnemonic := "mov",
          opStr := "rcx, [rip + 0x100]", size := 7 }).comment = some "hi" ∧
    ripResolvedTarget
        { address := 0x1000, bytes := [], mnemonic := "mov",
          opStr := "rcx, [rip + 0x100]", size := 7 } = some 0x1107 ∧
    jsMapHas [((0x1107 : Int), (⟨"kernel32.dll", "LoadLibraryA"⟩ : IatEntry))]
        0x1107 = true ∧
    scanHexLiterals "rcx, [rip + 0x100]".data = [0x100] ∧
    some "hi" ≠ some "kernel32.dll!LoadLibraryA" := by
  refine ⟨by decide, by decide, by decide, by decide, by decide⟩

/-- C4 (amended): the annotator's comment priority is (a) RIP-relative hit in
the string map, (b) absolute-hex hit in the string map, (c) RIP-relative hit
in the IAT map, (d) absolute-hex hit in the IAT map; string hits take
priority over IAT hits for both reference forms, each block guarded by its
map being non-empty. -/
theorem C4_annotator_priority (stringMap : List (Int × String))
    (iatMap : List (Int × IatEntry)) (i : Instruction) :
    (mapInsn stringMap iatMap i).comment = annotPriority stringMap iatMap i := by
  show mapInsnComment stringMap iatMap i = annotPriority stringMap iatMap i
  unfold mapInsnComment annotPriority
  split_ifs <;>
    cases ripStringHit stringMap i <;> cases absStringHit stringMap i <;>
    cases ripIatHit iatMap i <;> cases absIatHit iatMap i <;>
    simp [Option.orElse]

example :
    inferSignature32
      [{ address := 0, bytes := [], mnemonic := "ret", opStr := "0x8", size := 3 }] =
      { convention := "stdcall", paramCount := 2 } := by decide

example :
    inferSignature32
      [{ address := 0, bytes := [], mnemonic := "mov",
         opStr := "eax, dword ptr [ebp + 0x8]", size := 3 },
       { address := 3, bytes := [], mnemonic := "ret", opStr := "0x2", size := 3 }] =
      { convention := "stdcall", paramCount := 1 } := by decide

example :
    inferSignature32
      [{ address := 0, bytes := [], mnemonic := "ret", opStr := "", size := 1 }] =
      { convention := "cdecl", paramCount := 0 } := by decide

example :
    inferSignature32
      [{ address := 0, bytes := [], mnemonic := "ret", opStr := "0x0", size := 3 }] =
      { convention := "cdecl", paramCount := 0 } := by decide

/-- C9 counterexample: a 32-bit function ending in `ret 0x2` (N = 2 > 0) is
classified stdcall as claimed, but its paramCount is not N / 4 = 0: because
⌊N/4⌋ = 0, the `[ebp + 0xN]` parameter scan still runs and reports 1. -/
theorem C9_counterexample :
    inferSignature32
      [{ address := 0, bytes := [], mnemonic := "mov",
         opStr := "eax, dword ptr [ebp + 0x8]", size := 3 },
       { address := 3, bytes := [], mnemonic := "ret", opStr := "0x2", size := 3 }] =
      { convention := "stdcall", paramCount := 1 } ∧
    (2 : Nat) / 4 = 0 ∧ (1 : Nat) ≠ 2 / 4 := by
  refine ⟨by decide, by decide, by decide⟩

/-- C9 (amended): in 32-bit mode, for every non-empty instruction list,
`inferSignature32` returns convention stdcall iff the last instruction is
`ret N` / `retn N` with N > 0; in that case paramCount = ⌊N/4⌋ whenever
⌊N/4⌋ > 0 (when ⌊N/4⌋ = 0 the `[ebp + 0xN]` scan determines paramCount
instead).  `ret 0` does not yield stdcall. -/
theorem C9_stdcall_amended (insns : List Instruction) (h : insns ≠ []) :
    ((inferSignature32 insns).convention = "stdcall" ↔
      ∃ last, insns.getLast? = some last ∧
        (last.mnemonic = "ret" ∨ last.mnemonic = "retn") ∧
        ∃ n, retImmValue last.opStr = some n ∧ 0 < n) ∧
    (∀ last n, insns.getLast? = some last →
      (last.mnemonic = "ret" ∨ last.mnemonic = "retn") →
      retImmValue last.opStr = some n → 0 < n → 0 < n.toNat / 4 →
      (inferSignature32 insns).paramCount = n.toNat / 4) := by
  cases hlast : insns.getLast? with
  | none =>
    exact absurd (List.getLast?_eq_none_iff.mp hlast) h
  | some last =>
    by_cases hmn : last.mnemonic = "ret" ∨ last.mnemonic = "retn"
    · cases hret : retImmValue last.opStr with
      | some v =>
        by_cases hpos : (0 : Int) < v
        · constructor
          · constructor
            · intro _
              exact ⟨last, rfl, hmn, v, hret, hpos⟩
            · intro _
              simp only [inferSignature32, hlast, if_pos hmn, hret, if_pos hpos]
              simp
          · intro last2 n hlast2 hmn2 hret2 hn hq
            have hl : last2 = last := (Option.some.inj hlast2).symm
            subst hl
            rw [hret] at hret2
            have hv : v = n := Option.some.inj hret2
            subst hv
            simp only [inferSignature32, hlast, if_pos hmn, hret, if_pos hpos]
            have hne : ¬ (v.toNat / 4 = 0) := Nat.pos_iff_ne_zero.mp hq
            simp [hne]
        · constructor
          · constructor
            · intro hconv
              exfalso
              revert hconv
              simp only [inferSignature32, hlast, if_pos hmn, hret, if_neg hpos]
              split <;> decide
            · rintro ⟨last2, hlast2, _, n, hret2, hn⟩
              have hl : last2 = last := (Option.some.inj hlast2).symm
              subst hl
              rw [hret] at hret2
              have hv : v = n := Option.some.inj hret2
              subst hv
              exact absurd hn hpos
          · intro last2 n hlast2 hmn2 hret2 hn _
            have hl : last2 = last := (Option.some.inj hlast2).symm
            subst hl
            rw [hret] at hret2
            have hv : v = n := Option.some.inj hret2
            subst hv
            exact absurd hn hpos
      | none =>
        constructor
        · constructor
          · intro hconv
            exfalso
            revert hconv
            simp only [inferSignature32, hlast, if_pos hmn, hret]
            split <;> decide
          · rintro ⟨last2, hlast2, _, n, hret2, _⟩
            have hl : last2 = last := (Option.some.inj hlast2).symm
            subst hl
            rw [hret] at hret2
            exact Option.noConfusion hret2
        · intro last2 n hlast2 hmn2 hret2 _ _
          have hl : last2 = last := (Option.some.inj hlast2).symm
          subst hl
          rw [hret] at hret2
          exact Option.noConfusion hret2
    · constructor
      · constructor
        · intro hconv
          exfalso
          revert hconv
          simp only [inferSignature32, hlast, if_neg hmn]
          split <;> decide
        · rintro ⟨last2, hlast2, hmn2, _⟩
          have hl : last2 = last := (Option.some.inj hlast2).symm
          subst hl
          exact absurd hmn2 hmn
      · intro last2 n hlast2 hmn2 _ _ _
        have hl : last2 = last := (Option.some.inj hlast2).symm
        subst hl
        exact absurd hmn2 hmn

/-- Witness for the amended C9 at a function ending in `ret 0x8`. -/
theorem C9_witness :
    (inferSignature32
      [{ address := 0, bytes := [], mnemonic := "ret",
         opStr := "0x8", size := 3 }]).convention = "stdcall" ∧
    (inferSignature32
      [{ address := 0, bytes := [], mnemonic := "ret",
         opStr := "0x8", size := 3 }]).paramCount = 2 := by
  have h := C9_stdcall_amended
      [{ address := 0, bytes := [], mnemonic := "ret", opStr := "0x8", size := 3 }]
      (by decide)
  refine ⟨?_, ?_⟩
  · exact h.1.mpr
      ⟨{ address := 0, bytes := [], mnemonic := "ret", opStr := "0x8", size := 3 },
        by decide, Or.inl rfl, 8, by decide, by decide⟩
  · exact h.2
      { address := 0, bytes := [], mnemonic := "ret", opStr := "0x8", size := 3 }
      8 (by decide) (Or.inl rfl) (by decide) (by decide) (by decide)

example :
    detectLoops
      [{ id := 0, startAddr := 0x10, endAddr := 0x16, insns := [],
         succs := [0, 1], preds := [0] },
       { id := 1, startAddr := 0x16, endAddr := 0x18, insns := [],
         succs := [], preds := [0] }] =
      [{ headerAddr := 0x10, backEdgeFromAddr := 0x16, depth := 0 }] := by decide

theorem length_assignDepths (l : List Loop) :
    (assignDepths l).length = l.length := by
  simp [assignDepths, List.enum_length]

theorem get?_assignDepths (l : List Loop) (j : Nat) :
    (assignDepths l).get? j =
      (l.get? j).map (fun x => { x with depth := loopDepthAt l j }) := by
  simp only [assignDepths, List.get?_eq_getElem?, List.getElem?_map, List.getElem?_enum]
  cases l[j]? <;> rfl

theorem loopDepthAt_assignDepths (l : List Loop) (i : Nat) :
    loopDepthAt (assignDepths l) i = loopDepthAt l i := by
  unfold loopDepthAt
  rw [length_assignDepths]
  congr 1
  apply List.filter_congr
  intro j _
  rw [List.get?_eq_getElem?, List.get?_eq_getElem?,
    ← List.get?_eq_getElem?, ← List.get?_eq_getElem?,
    get?_assignDepths, get?_assignDepths]
  cases l.get? i <;> cases l.get? j <;> rfl

/-- C8: each loop returned by `detectLoops` carries depth equal to the number
of other returned loops whose half-open interval
`[headerAddr, backEdgeFromAddr)` contains its header address. -/
theorem C8_loop_depth (blocks : List BasicBlock) (i : Nat)
    (hi : i < (detectLoops blocks).length) :
    ((detectLoops blocks).get ⟨i, hi⟩).depth = loopDepthAt (detectLoops blocks) i := by
  by_cases hb : blocks.length = 0
  · rw [detectLoops, if_pos hb] at hi
    exact absurd hi (by simp)
  · have hdl : detectLoops blocks =
        assignDepths (sortByLe loopLe (collectLoops blocks (bfsLayers blocks))) := by
      rw [detectLoops, if_neg hb]
    revert hi
    rw [hdl]
    intro hi
    set L := sortByLe loopLe (collectLoops blocks (bfsLayers blocks)) with hL
    rw [loopDepthAt_assignDepths]
    have hi2 : i < L.length := by
      rwa [length_assignDepths] at hi
    have hx : L.get? i = some (L.get ⟨i, hi2⟩) := List.get?_eq_get hi2
    have hy : (assignDepths L).get? i =
        some { L.get ⟨i, hi2⟩ with depth := loopDepthAt L i } := by
      rw [get?_assignDepths, hx]
      rfl
    have hz : (assignDepths L).get? i = some ((assignDepths L).get ⟨i, hi⟩) :=
      List.get?_eq_get hi
    have hget : (assignDepths L).get ⟨i, hi⟩ =
        { L.get ⟨i, hi2⟩ with depth := loopDepthAt L i } :=
      Option.some.inj (hz.symm.trans hy)
    rw [hget]

/-- Witness for C8 at a one-block self-loop. -/
theorem C8_witness :
    ((detectLoops
      [{ id := 0, startAddr := 0x10, endAddr := 0x16, insns := [],
         succs := [0, 1], preds := [0] },
       { id := 1, startAddr := 0x16, endAddr := 0x18, insns := [],
         succs := [], preds := [0] }]).get ⟨0, by decide⟩).depth =
      loopDepthAt
        (detectLoops
          [{ id := 0, startAddr := 0x10, endAddr := 0x16, insns := [],
             succs := [0, 1], preds := [0] },
           { id := 1, startAddr := 0x16, endAddr := 0x18, insns := [],
             succs := [], preds := [0] }]) 0 :=
  C8_loop_depth _ 0 (by decide)

example :
    detectFunctions [0x55, 0x8B, 0xEC, 0xCC, 0xCC, 0x55, 0x8B, 0xEC] 0x1000 false
      {} [] =
      [{ name := "sub_1000", address := 0x1000, size := 5 },
       { name := "sub_1005", address := 0x1005, size := 3 }] := by decide

theorem foldl_preserve {α β : Type} {P : α → Prop} {f : α → β → α}
    (h : ∀ a b, P a → P (f a b)) :
    ∀ (l : List β) (a : α), P a → P (l.foldl f a) := by
  intro l
  induction l with
  | nil => intro a ha; simpa using ha
  | cons b rest ih =>
    intro a ha
    simp only [List.foldl_cons]
    exact ih (f a b) (h a b ha)

theorem nodup_setAdd {l : List Nat} (a : Nat) (h : l.Nodup) : (setAdd l a).Nodup := by
  unfold setAdd
  by_cases hm : a ∈ l
  · rwa [if_pos hm]
  · rw [if_neg hm]
    rw [List.nodup_append]
    exact ⟨h, List.nodup_singleton a, by
      intro x hx hz
      rw [List.mem_singleton.mp hz] at hx
      exact hm hx⟩

theorem perm_insertLe (x : Nat) (l : List Nat) :
    List.Perm (insertLe natLe x l) (x :: l) := by
  induction l with
  | nil => exact List.Perm.refl _
  | cons y ys ih =>
    unfold insertLe
    by_cases h : natLe x y = true
    · rw [if_pos h]
    · rw [if_neg h]
      exact (List.Perm.cons y ih).trans (List.Perm.swap x y ys)

theorem perm_sortByLe (l : List Nat) : List.Perm (sortByLe natLe l) l := by
  induction l with
  | nil => exact List.Perm.refl _
  | cons x xs ih =>
    unfold sortByLe
    exact (perm_insertLe x (sortByLe natLe xs)).trans (List.Perm.cons x ih)

theorem sorted_insertLe (x : Nat) {l : List Nat} (hl : l.Pairwise (· ≤ ·)) :
    (insertLe natLe x l).Pairwise (· ≤ ·) := by
  induction l with
  | nil => simp [insertLe]
  | cons y ys ih =>
    rcases List.pairwise_cons.mp hl with ⟨hy, hys⟩
    unfold insertLe
    by_cases h : natLe x y = true
    · rw [if_pos h]
      have hxy : x ≤ y := of_decide_eq_true h
      refine List.pairwise_cons.mpr ⟨?_, hl⟩
      intro z hz
      rcases List.mem_cons.mp hz with rfl | hz2
      · exact hxy
      · exact le_trans hxy (hy z hz2)
    · rw [if_neg h]
      have hyx : y ≤ x := by
        have hnot : ¬ (x ≤ y) := by
          intro hle
          exact h (by simpa [natLe] using hle)
        omega
      refine List.pairwise_cons.mpr ⟨?_, ih hys⟩
      intro z hz
      have hz3 : z ∈ x :: ys := (perm_insertLe x ys).mem_iff.mp hz
      rcases List.mem_cons.mp hz3 with rfl | hz2
      · exact hyx
      · exact hy z hz2

theorem sorted_sortByLe (l : List Nat) : (sortByLe natLe l).Pairwise (· ≤ ·) := by
  induction l with
  | nil => simp [sortByLe]
  | cons x xs ih =>
    unfold sortByLe
    exact sorted_insertLe x ih

theorem pairwise_lt_sortByLe {l : List Nat} (hn : l.Nodup) :
    (sortByLe natLe l).Pairwise (· < ·) := by
  have hs := sorted_sortByLe l
  have hnd : (sortByLe natLe l).Nodup := (perm_sortByLe l).nodup_iff.mpr hn
  exact (hs.and hnd).imp (fun h => lt_of_le_of_ne h.1 h.2)

theorem nodup_detectEntryState (baseAddress endAddress : Nat) (o : Option Nat) :
    (detectEntryState baseAddress endAddress o).1.Nodup := by
  cases o with
  | none => simp [detectEntryState]
  | some ep =>
    by_cases hr : baseAddress ≤ ep ∧ ep < endAddress
    · simp only [detectEntryState, if_pos hr]
      exact nodup_setAdd _ List.nodup_nil
    · simp only [detectEntryState, if_neg hr]
      exact List.nodup_nil

theorem nodup_detectExportsFold (baseAddress endAddress : Nat)
    (st1 : List Nat × List (Nat × String)) (h : st1.1.Nodup)
    (o : Option (List ExportInfo)) :
    (detectExportsFold baseAddress endAddress st1 o).1.Nodup := by
  cases o with
  | none => exact h
  | some exps =>
    refine foldl_preserve (P := fun st : List Nat × List (Nat × String) => st.1.Nodup)
      ?_ exps st1 h
    intro st exp hp
    by_cases hr : baseAddress ≤ exp.address ∧ exp.address < endAddress
    · rw [if_pos hr]
      exact nodup_setAdd _ hp
    · rwa [if_neg hr]

theorem nodup_detectNameState (baseAddress endAddress : Nat) (options : DetectOptions) :
    (detectNameState baseAddress endAddress options).1.Nodup :=
  nodup_detectExportsFold baseAddress endAddress _
    (nodup_detectEntryState baseAddress endAddress options.entryPoint) options.exports

theorem nodup_detectAddrs (bytes : List Nat) (baseAddress : Nat) (is64 : Bool)
    (options : DetectOptions) (decoded : List Instruction) :
    (detectAddrs bytes baseAddress is64 options decoded).Nodup := by
  unfold detectAddrs
  have h2 := nodup_detectNameState baseAddress (baseAddress + bytes.length) options
  have h3 : ((List.range bytes.length).foldl
      (fun s i => if prologueHit bytes is64 i then setAdd s (baseAddress + i) else s)
      (detectNameState baseAddress (baseAddress + bytes.length) options).1).Nodup := by
    refine foldl_preserve ?_ _ _ h2
    intro s i hs
    by_cases hp : prologueHit bytes is64 i = true
    · rw [if_pos hp]
      exact nodup_setAdd _ hs
    · rwa [if_neg hp]
  have h4 : ((padScanAux bytes baseAddress bytes.length 0).foldl setAdd
      ((List.range bytes.length).foldl
        (fun s i => if prologueHit bytes is64 i then setAdd s (baseAddress + i) else s)
        (detectNameState baseAddress (baseAddress + bytes.length) options).1)).Nodup := by
    refine foldl_preserve ?_ _ _ h3
    intro s a hs
    exact nodup_setAdd _ hs
  by_cases hlen : bytes.length < 2 * 1024 * 1024
  · rw [if_pos hlen]
    refine foldl_preserve ?_ _ _ h4
    intro s a hs
    exact nodup_setAdd _ hs
  · rw [if_neg hlen]
    exact h4

theorem assignSizes_map_address (e : Nat) :
    ∀ l : List DisasmFunction,
      (assignSizes e l).map (fun f => f.address) = l.map (fun f => f.address) := by
  intro l
  induction l with
  | nil => rfl
  | cons f rest ih =>
    cases rest with
    | nil => rfl
    | cons g rest2 =>
      show (assignSizes e (f :: g :: rest2)).map (fun f => f.address) = _
      rw [assignSizes]
      simp only [List.map_cons]
      rw [ih]
      rfl

theorem assignSizes_head_address (e : Nat) (g : DisasmFunction)
    (rest : List DisasmFunction) :
    ∃ y, (assignSizes e (g :: rest)).head? = some y ∧ y.address = g.address := by
  cases rest with
  | nil => exact ⟨_, rfl, rfl⟩
  | cons h t => exact ⟨_, rfl, rfl⟩

theorem assignSizes_chain (e : Nat) :
    ∀ l, List.Chain' (fun f g => f.size = (g.address : Int) - (f.address : Int))
      (assignSizes e l) := by
  intro l
  induction l with
  | nil => exact List.chain'_nil
  | cons f rest ih =>
    cases rest with
    | nil => simp [assignSizes]
    | cons g rest2 =>
      rw [assignSizes]
      refine List.chain'_cons'.mpr ⟨?_, ih⟩
      intro y hy
      obtain ⟨y2, hh, ha⟩ := assignSizes_head_address e g rest2
      rw [hh] at hy
      have hyy : y2 = y := Option.some.inj (Option.mem_def.mp hy)
      subst hyy
      show (g.address : Int) - (f.address : Int) = (y2.address : Int) - (f.address : Int)
      rw [ha]

theorem assignSizes_cons_shape (e : Nat) (g : DisasmFunction)
    (rest : List DisasmFunction) :
    ∃ y t, assignSizes e (g :: rest) = y :: t := by
  cases rest with
  | nil => exact ⟨_, _, rfl⟩
  | cons h t => exact ⟨_, _, rfl⟩

theorem assignSizes_getLast (e : Nat) :
    ∀ (l : List DisasmFunction) (f : DisasmFunction),
      (assignSizes e l).getLast? = some f → f.size = (e : Int) - (f.address : Int) := by
  intro l
  induction l with
  | nil =>
    intro f hf
    exact Option.noConfusion hf
  | cons g rest ih =>
    cases rest with
    | nil =>
      intro f hf
      have hfg : f = { g with size := (e : Int) - (g.address : Int) } :=
        (Option.some.inj hf).symm
      subst hfg
      rfl
    | cons g2 rest2 =>
      intro f hf
      rw [assignSizes] at hf
      obtain ⟨y, t, hyt⟩ := assignSizes_cons_shape e g2 rest2
      rw [hyt, List.getLast?_cons_cons] at hf
      apply ih f
      rw [hyt]
      exact hf

theorem map_address_map_mk (m : List (Nat × String)) (l : List Nat) :
    (l.map (mkDetectedFunction m)).map (fun f => f.address) = l := by
  rw [List.map_map]
  have hcomp : ((fun f : DisasmFunction => f.address) ∘ mkDetectedFunction m) =
      fun addr => addr := rfl
  rw [hcomp]
  exact List.map_id' l

/-- C5: the function list returned by `detectFunctions` has strictly
ascending addresses, each function's size is the distance to the next
function's address, and the last function's size extends to the section end
(base VA + section length). -/
theorem C5_function_tiling (bytes : List Nat) (baseAddress : Nat) (is64 : Bool)
    (options : DetectOptions) (decoded : List Instruction) :
    (detectFunctions bytes baseAddress is64 options decoded).Pairwise
      (fun f g => f.address < g.address) ∧
    List.Chain' (fun f g => f.size = (g.address : Int) - (f.address : Int))
      (detectFunctions bytes baseAddress is64 options decoded) ∧
    (∀ f, (detectFunctions bytes baseAddress is64 options decoded).getLast? = some f →
      f.size = ((baseAddress + bytes.length : Nat) : Int) - (f.address : Int)) := by
  refine ⟨?_, ?_, ?_⟩
  · have hmap : (detectFunctions bytes baseAddress is64 options decoded).map
        (fun f => f.address) =
        sortByLe natLe (detectAddrs bytes baseAddress is64 options decoded) := by
      simp only [detectFunctions]
      rw [assignSizes_map_address, map_address_map_mk]
    have hlt := pairwise_lt_sortByLe
      (nodup_detectAddrs bytes baseAddress is64 options decoded)
    rw [← hmap] at hlt
    exact List.pairwise_map.mp hlt
  · simp only [detectFunctions]
    exact assignSizes_chain _ _
  · intro f hf
    simp only [detectFunctions] at hf
    exact assignSizes_getLast _ _ f hf

/-- Witness for C5 on a concrete 32-bit section: two prologues separated by
an alignment pad produce functions at 0x1000 (size 5) and 0x1005 (size 3). -/
theorem C5_witness :
    ({ name := "sub_1005", address := 0x1005, size := 3 } : DisasmFunction).size =
      ((0x1000 + 8 : Nat) : Int) -
        (({ name := "sub_1005", address := 0x1005, size := 3 } : DisasmFunction).address : Int) := by
  have h := C5_function_tiling [0x55, 0x8B, 0xEC, 0xCC, 0xCC, 0x55, 0x8B, 0xEC]
    0x1000 false {} []
  have hlast : (detectFunctions [0x55, 0x8B, 0xEC, 0xCC, 0xCC, 0x55, 0x8B, 0xEC]
      0x1000 false {} []).getLast? =
      some { name := "sub_1005", address := 0x1005, size := 3 } := by decide
  have hlen : ([0x55, 0x8B, 0xEC, 0xCC, 0xCC, 0x55, 0x8B, 0xEC] : List Nat).length = 8 := by
    decide
  have := h.2.2 _ hlast
  rwa [hlen] at this

example : cexImageC1.length = 224 := by decide

example : cexImageC6.length = 320 := by decide

example :
    (parsePE cexImageC1).toOption.map
      (fun pe => pe.sections.map (fun s => (s.pointerToRawData, s.sizeOfRawData))) =
      some [(0x200, 0x10000)] := by decide

example :
    (parsePE cexImageC6).toOption.map (fun pe => pe.dataDirectories.length) =
      some 17 := by decide

/-- C1 counterexample: parse accepts `cexImageC1`, whose single section
declares pointerToRawData 0x200 and sizeOfRawData 0x10000 against a 224-byte
image — no raw-range check exists in the parser. -/
theorem C1_counterexample :
    ¬ (∀ (b : List Nat) (pe : PEFile), parsePE b = Except.ok pe →
        ∀ s ∈ pe.sections, s.pointerToRawData + s.sizeOfRawData ≤ b.length) := by
  intro h
  have hchk : (match parsePE cexImageC1 with
      | Except.ok pe =>
        decide (∀ s ∈ pe.sections,
          s.pointerToRawData + s.sizeOfRawData ≤ cexImageC1.length)
      | Except.error _ => true) = false := by decide
  revert hchk
  cases hpe : parsePE cexImageC1 with
  | error e =>
    intro hchk
    exact Bool.noConfusion hchk
  | ok pe =>
    intro hchk
    exact of_decide_eq_false hchk (h cexImageC1 pe hpe)

/-- C6 counterexample: `cexImageC6` declares numberOfRvaAndSizes = 17 and
parses successfully with 17 data-directory entries, not min(17, 16). -/
theorem C6_counterexample :
    ¬ (∀ (b : List Nat) (pe : PEFile), parsePE b = Except.ok pe →
        pe.dataDirectories.length = min pe.optionalHeader.numberOfRvaAndSizes 16) := by
  intro h
  have hchk : (match parsePE cexImageC6 with
      | Except.ok pe =>
        decide (pe.dataDirectories.length = min pe.optionalHeader.numberOfRvaAndSizes 16)
      | Except.error _ => true) = false := by decide
  revert hchk
  cases hpe : parsePE cexImageC6 with
  | error e =>
    intro hchk
    exact Bool.noConfusion hchk
  | ok pe =>
    intro hchk
    exact of_decide_eq_false hchk (h cexImageC6 pe hpe)

theorem parseDataDirectoriesAux_length (b : List Nat) (off : Nat) :
    ∀ (count i : Nat) (l : List DataDirectory),
      parseDataDirectoriesAux b off i count = Except.ok l → l.length = count := by
  intro count
  induction count with
  | zero =>
    intro i l h
    simp only [parseDataDirectoriesAux] at h
    rw [← Except.ok.inj h]
    rfl
  | succ rem ih =>
    intro i l h
    simp only [parseDataDirectoriesAux] at h
    by_cases hb : off + i * 8 + 8 ≤ b.length
    · rw [if_pos hb] at h
      revert h
      cases hrec : parseDataDirectoriesAux b off (i + 1) rem with
      | error e => intro h; exact Except.noConfusion h
      | ok rest =>
        intro h
        rw [← Except.ok.inj h]
        simp [ih (i + 1) rest hrec]
    · rw [if_neg hb] at h
      exact Except.noConfusion h

theorem parsePETail_dd_length (b : List Nat) (dos : DOSHeader) (coff : COFFHeader)
    (rawOpt : Sum OptionalHeader32 OptionalHeader64) (is64 : Bool)
    (oOff dOff : Nat) (pe : PEFile)
    (h : parsePETail b dos coff rawOpt is64 oOff dOff = Except.ok pe) :
    pe.dataDirectories.length = pe.optionalHeader.numberOfRvaAndSizes := by
  unfold parsePETail at h
  revert h
  cases hdd : parseDataDirectories b dOff (normalizeOptionalHeader rawOpt).numberOfRvaAndSizes with
  | error e => intro h; exact Except.noConfusion h
  | ok dd =>
    dsimp only
    cases hs : parseSectionHeaders b (oOff + coff.sizeOfOptionalHeader) coff.numberOfSections with
    | error e => intro h; exact Except.noConfusion h
    | ok sections =>
      dsimp only
      intro h
      rw [← Except.ok.inj h]
      exact parseDataDirectoriesAux_length b dOff _ 0 dd hdd

/-- C6 (amended): when parse succeeds, exactly numberOfRvaAndSizes
data-directory entries were read — the count is not clamped to 16; an
oversized count either reads that many entries or fails the parse on an
out-of-range read. -/
theorem C6_dd_count_amended (b : List Nat) (pe : PEFile)
    (h : parsePE b = Except.ok pe) :
    pe.dataDirectories.length = pe.optionalHeader.numberOfRvaAndSizes := by
  unfold parsePE at h
  revert h
  cases hdos : parseDOSHeader b with
  | error e => intro h; exact Except.noConfusion h
  | ok dosHeader =>
    dsimp only
    by_cases hpo : b.length < dosHeader.e_lfanew + 4
    · rw [if_pos hpo]
      intro h
      exact Except.noConfusion h
    · rw [if_neg hpo]
      by_cases hsig : pureU32 b dosHeader.e_lfanew ≠ IMAGE_NT_SIGNATURE
      · rw [if_pos hsig]
        intro h
        exact Except.noConfusion h
      · rw [if_neg hsig]
        cases hcoff : parseCOFFHeader b (dosHeader.e_lfanew + 4) with
        | error e => intro h; exact Except.noConfusion h
        | ok coffHeader =>
          dsimp only
          cases hmagic : dvU16 b (dosHeader.e_lfanew + 4 + 20) with
          | error e => intro h; exact Except.noConfusion h
          | ok magic =>
            dsimp only
            by_cases h64 : magic = IMAGE_NT_OPTIONAL_HDR64_MAGIC
            · rw [if_pos h64]
              cases hopt : parseOptionalHeader64 b (dosHeader.e_lfanew + 4 + 20) with
              | error e => intro h; exact Except.noConfusion h
              | ok o =>
                dsimp only
                intro h
                exact parsePETail_dd_length b dosHeader coffHeader (Sum.inr o) true _ _ pe h
            · rw [if_neg h64]
              by_cases h32 : magic = IMAGE_NT_OPTIONAL_HDR32_MAGIC
              · rw [if_pos h32]
                cases hopt : parseOptionalHeader32 b (dosHeader.e_lfanew + 4 + 20) with
                | error e => intro h; exact Except.noConfusion h
                | ok o =>
                  dsimp only
                  intro h
                  exact parsePETail_dd_length b dosHeader coffHeader (Sum.inl o) false _ _ pe h
              · rw [if_neg h32]
                intro h
                exact Except.noConfusion h

/-- Witness for the amended C6 on the concrete 17-directory image. -/
theorem C6_witness :
    (parsePE cexImageC6).toOption.map
      (fun pe => (pe.dataDirectories.length, pe.optionalHeader.numberOfRvaAndSizes)) =
      some (17, 17) := by
  have hchk : (parsePE cexImageC6).toOption.map
      (fun pe => pe.optionalHeader.numberOfRvaAndSizes) = some 17 := by decide
  revert hchk
  cases hpe : parsePE cexImageC6 with
  | error e =>
    intro hchk
    exact Option.noConfusion hchk
  | ok pe =>
    intro hchk
    have hlen := C6_dd_count_amended cexImageC6 pe hpe
    simp only [Except.toOption, Option.map] at hchk ⊢
    have h17 : pe.optionalHeader.numberOfRvaAndSizes = 17 := Option.some.inj hchk
    rw [hlen, h17]

theorem isOk_ok {ε α : Type} (a : α) : (Except.ok a : Except ε α).isOk = true := rfl

theorem isOk_error {ε α : Type} (e : ε) : (Except.error e : Except ε α).isOk = false := rfl

theorem bool_eq_of_iff {a b : Bool} (h : a = true ↔ b = true) : a = b := by
  cases a <;> cases b <;> simp_all

theorem parseDataDirectoriesAux_isOk (b : List Nat) (off : Nat) :
    ∀ (count i : Nat),
      (parseDataDirectoriesAux b off i count).isOk = true ↔
        (count = 0 ∨ off + (i + count) * 8 ≤ b.length) := by
  intro count
  induction count with
  | zero =>
    intro i
    simp [parseDataDirectoriesAux, isOk_ok]
  | succ rem ih =>
    intro i
    simp only [parseDataDirectoriesAux]
    by_cases h : off + i * 8 + 8 ≤ b.length
    · rw [if_pos h]
      cases hrec : parseDataDirectoriesAux b off (i + 1) rem with
      | error e =>
        have h2 := ih (i + 1)
        rw [hrec, isOk_error] at h2
        have h3 : ¬ (rem = 0 ∨ off + (i + 1 + rem) * 8 ≤ b.length) := by
          intro hx
          exact absurd (h2.mpr hx) (by simp)
        dsimp only
        rw [isOk_error]
        constructor
        · intro hx
          exact Bool.noConfusion hx
        · intro hy
          exfalso
          rcases hy with h0 | hb
          · exact Nat.succ_ne_zero rem h0
          · exact h3 (Or.inr (by omega))
      | ok rest =>
        have h2 := ih (i + 1)
        rw [hrec, isOk_ok] at h2
        have h3 := h2.mp rfl
        dsimp only
        rw [isOk_ok]
        simp only [true_iff]
        rcases h3 with h0 | hb
        · subst h0
          right
          omega
        · right
          omega
    · rw [if_neg h]
      rw [isOk_error]
      constructor
      · intro hx
        exact Bool.noConfusion hx
      · intro hy
        exfalso
        rcases hy with h0 | hb
        · exact Nat.succ_ne_zero rem h0
        · omega

theorem parseSectionHeadersAux_isOk (b : List Nat) (off : Nat) :
    ∀ (count i : Nat),
      (parseSectionHeadersAux b off i count).isOk = true ↔
        (count = 0 ∨ off + (i + count) * 40 ≤ b.length) := by
  intro count
  induction count with
  | zero =>
    intro i
    simp [parseSectionHeadersAux, isOk_ok]
  | succ rem ih =>
    intro i
    simp only [parseSectionHeadersAux]
    by_cases h : off + i * 40 + 40 ≤ b.length
    · rw [if_pos h]
      cases hrec : parseSectionHeadersAux b off (i + 1) rem with
      | error e =>
        have h2 := ih (i + 1)
        rw [hrec, isOk_error] at h2
        have h3 : ¬ (rem = 0 ∨ off + (i + 1 + rem) * 40 ≤ b.length) := by
          intro hx
          exact absurd (h2.mpr hx) (by simp)
        dsimp only
        rw [isOk_error]
        constructor
        · intro hx
          exact Bool.noConfusion hx
        · intro hy
          exfalso
          rcases hy with h0 | hb
          · exact Nat.succ_ne_zero rem h0
          · exact h3 (Or.inr (by omega))
      | ok rest =>
        have h2 := ih (i + 1)
        rw [hrec, isOk_ok] at h2
        have h3 := h2.mp rfl
        dsimp only
        rw [isOk_ok]
        simp only [true_iff]
        rcases h3 with h0 | hb
        · subst h0
          right
          omega
        · right
          omega
    · rw [if_neg h]
      rw [isOk_error]
      constructor
      · intro hx
        exact Bool.noConfusion hx
      · intro hy
        exfalso
        rcases hy with h0 | hb
        · exact Nat.succ_ne_zero rem h0
        · omega

theorem parsePETail_isOk (b : List Nat) (dos : DOSHeader) (coff : COFFHeader)
    (rawOpt : Sum OptionalHeader32 OptionalHeader64) (is64 : Bool)
    (oOff dOff : Nat) :
    (parsePETail b dos coff rawOpt is64 oOff dOff).isOk =
      ((parseDataDirectories b dOff (normalizeOptionalHeader rawOpt).numberOfRvaAndSizes).isOk &&
        (parseSectionHeaders b (oOff + coff.sizeOfOptionalHeader)
          coff.numberOfSections).isOk) := by
  unfold parsePETail
  cases parseDataDirectories b dOff (normalizeOptionalHeader rawOpt).numberOfRvaAndSizes with
  | error e => rfl
  | ok dd =>
    dsimp only
    cases parseSectionHeaders b (oOff + coff.sizeOfOptionalHeader) coff.numberOfSections with
    | error e => rfl
    | ok s => rfl

theorem parseCOFFHeader_isOk (b : List Nat) (off : Nat) :
    (parseCOFFHeader b off).isOk = true ↔ off + 20 ≤ b.length := by
  unfold parseCOFFHeader
  by_cases h : off + 20 ≤ b.length
  · rw [if_pos h, isOk_ok]
    simp [h]
  · rw [if_neg h, isOk_error]
    simp [h]

theorem parseOptionalHeader32_isOk (b : List Nat) (off : Nat) :
    (parseOptionalHeader32 b off).isOk = true ↔ off + 96 ≤ b.length := by
  unfold parseOptionalHeader32
  by_cases h : off + 96 ≤ b.length
  · rw [if_pos h, isOk_ok]
    simp [h]
  · rw [if_neg h, isOk_error]
    simp [h]

theorem parseOptionalHeader64_isOk (b : List Nat) (off : Nat) :
    (parseOptionalHeader64 b off).isOk = true ↔ off + 112 ≤ b.length := by
  unfold parseOptionalHeader64
  by_cases h : off + 112 ≤ b.length
  · rw [if_pos h, isOk_ok]
    simp [h]
  · rw [if_neg h, isOk_error]
    simp [h]

theorem parseCOFFHeader_fields (b : List Nat) (off : Nat) (c : COFFHeader)
    (h : parseCOFFHeader b off = Except.ok c) :
    c.sizeOfOptionalHeader = pureU16 b (off + 16) ∧
      c.numberOfSections = pureU16 b (off + 2) := by
  unfold parseCOFFHeader at h
  by_cases hb : off + 20 ≤ b.length
  · rw [if_pos hb] at h
    rw [← Except.ok.inj h]
    exact ⟨rfl, rfl⟩
  · rw [if_neg hb] at h
    exact Except.noConfusion h

theorem parseOptionalHeader64_count (b : List Nat) (off : Nat) (o : OptionalHeader64)
    (h : parseOptionalHeader64 b off = Except.ok o) :
    o.numberOfRvaAndSizes = pureU32 b (off + 108) := by
  unfold parseOptionalHeader64 at h
  by_cases hb : off + 112 ≤ b.length
  · rw [if_pos hb] at h
    rw [← Except.ok.inj h]
  · rw [if_neg hb] at h
    exact Except.noConfusion h

theorem parseOptionalHeader32_count (b : List Nat) (off : Nat) (o : OptionalHeader32)
    (h : parseOptionalHeader32 b off = Except.ok o) :
    o.numberOfRvaAndSizes = pureU32 b (off + 92) := by
  unfold parseOptionalHeader32 at h
  by_cases hb : off + 96 ≤ b.length
  · rw [if_pos hb] at h
    rw [← Except.ok.inj h]
  · rw [if_neg hb] at h
    exact Except.noConfusion h

theorem parsePETail_isOk_bounds (b : List Nat) (dos : DOSHeader) (coff : COFFHeader)
    (rawOpt : Sum OptionalHeader32 OptionalHeader64) (is64 : Bool)
    (oOff dOff : Nat) :
    (parsePETail b dos coff rawOpt is64 oOff dOff).isOk = true ↔
      (((normalizeOptionalHeader rawOpt).numberOfRvaAndSizes = 0 ∨
        dOff + (normalizeOptionalHeader rawOpt).numberOfRvaAndSizes * 8 ≤ b.length) ∧
       (coff.numberOfSections = 0 ∨
        oOff + coff.sizeOfOptionalHeader + coff.numberOfSections * 40 ≤ b.length)) := by
  rw [parsePETail_isOk, Bool.and_eq_true]
  unfold parseDataDirectories parseSectionHeaders
  rw [parseDataDirectoriesAux_isOk, parseSectionHeadersAux_isOk]
  constructor
  · rintro ⟨h1, h2⟩
    refine ⟨?_, ?_⟩ <;> omega
  · rintro ⟨h1, h2⟩
    refine ⟨?_, ?_⟩ <;> omega

/-- C1 (amended): `parsePE` succeeds exactly when the DOS and PE signatures,
the optional-header magic, and the header-table extents (optional header,
data directories, section-header table) fit the image; no condition relates
a section's pointerToRawData + sizeOfRawData to the image length, so images
with escaping raw ranges still parse. -/
theorem C1_parse_success_amended (b : List Nat) :
    (parsePE b).isOk = parseHeadersOk b := by
  apply bool_eq_of_iff
  unfold parsePE parseDOSHeader parseHeadersOk
  by_cases h2 : 2 ≤ b.length
  case neg =>
    rw [if_neg h2]
    dsimp only
    rw [isOk_error]
    simp [h2]
  rw [if_pos h2]
  by_cases hm : pureU16 b 0 = IMAGE_DOS_SIGNATURE
  case neg =>
    rw [if_pos hm]
    dsimp only
    rw [isOk_error]
    simp [hm]
  rw [if_neg (not_not_intro hm)]
  by_cases h64 : 64 ≤ b.length
  case neg =>
    rw [if_neg h64]
    dsimp only
    rw [isOk_error]
    simp [h64]
  rw [if_pos h64]
  dsimp only
  by_cases hpo : b.length < pureU32 b 60 + 4
  case pos =>
    rw [if_pos hpo]
    rw [isOk_error]
    simp [hpo]
  rw [if_neg hpo]
  by_cases hsig : pureU32 b (pureU32 b 60) = IMAGE_NT_SIGNATURE
  case neg =>
    rw [if_pos hsig]
    rw [isOk_error]
    simp [hsig]
  rw [if_neg (not_not_intro hsig)]
  cases hcoff : parseCOFFHeader b (pureU32 b 60 + 4) with
  | error e =>
    dsimp only
    rw [isOk_error]
    have hc := parseCOFFHeader_isOk b (pureU32 b 60 + 4)
    rw [hcoff, isOk_error] at hc
    have hbound : ¬ (pureU32 b 60 + 4 + 20 ≤ b.length) := fun hx =>
      Bool.noConfusion (hc.mpr hx)
    simp [hbound]
  | ok coffHeader =>
    dsimp only
    have hc := parseCOFFHeader_isOk b (pureU32 b 60 + 4)
    rw [hcoff, isOk_ok] at hc
    have hcb : pureU32 b 60 + 4 + 20 ≤ b.length := hc.mp rfl
    obtain ⟨hsoh, hnsec⟩ := parseCOFFHeader_fields b _ coffHeader hcoff
    cases hmag : dvU16 b (pureU32 b 60 + 4 + 20) with
    | error e =>
      dsimp only
      rw [isOk_error]
      have hm2 : ¬ (pureU32 b 60 + 4 + 20 + 2 ≤ b.length) := by
        intro hx
        unfold dvU16 at hmag
        rw [if_pos hx] at hmag
        exact Except.noConfusion hmag
      simp [hm2]
    | ok magic =>
      dsimp only
      have hmag2 : magic = pureU16 b (pureU32 b 60 + 4 + 20) ∧
          pureU32 b 60 + 4 + 20 + 2 ≤ b.length := by
        unfold dvU16 at hmag
        by_cases hx : pureU32 b 60 + 4 + 20 + 2 ≤ b.length
        · rw [if_pos hx] at hmag
          exact ⟨(Except.ok.inj hmag).symm, hx⟩
        · rw [if_neg hx] at hmag
          exact Except.noConfusion hmag
      by_cases h64m : magic = IMAGE_NT_OPTIONAL_HDR64_MAGIC
      · rw [if_pos h64m]
        cases hopt : parseOptionalHeader64 b (pureU32 b 60 + 4 + 20) with
        | error e =>
          dsimp only
          rw [isOk_error]
          have ho := parseOptionalHeader64_isOk b (pureU32 b 60 + 4 + 20)
          rw [hopt, isOk_error] at ho
          have hb112 : ¬ (pureU32 b 60 + 4 + 20 + 112 ≤ b.length) := fun hx =>
            Bool.noConfusion (ho.mpr hx)
          rw [← hmag2.1]
          simp [h2, hm, h64, hpo, hsig, hmag2.2, h64m, hb112]
        | ok o =>
          dsimp only
          have ho := parseOptionalHeader64_isOk b (pureU32 b 60 + 4 + 20)
          rw [hopt, isOk_ok] at ho
          have hb112 : pureU32 b 60 + 4 + 20 + 112 ≤ b.length := ho.mp rfl
          have hocount := parseOptionalHeader64_count b _ o hopt
          rw [parsePETail_isOk_bounds]
          rw [← hmag2.1]
          simp only [hsoh, hnsec, hocount, normalizeOptionalHeader]
          simp [h2, hm, h64, hpo, hsig, hmag2.2, h64m, hb112, hcb, ddSecOk]
      · rw [if_neg h64m]
        have hmagne : ¬ (IMAGE_NT_OPTIONAL_HDR32_MAGIC = IMAGE_NT_OPTIONAL_HDR64_MAGIC) := by
          decide
        by_cases h32m : magic = IMAGE_NT_OPTIONAL_HDR32_MAGIC
        · rw [if_pos h32m]
          cases hopt : parseOptionalHeader32 b (pureU32 b 60 + 4 + 20) with
          | error e =>
            dsimp only
            rw [isOk_error]
            have ho := parseOptionalHeader32_isOk b (pureU32 b 60 + 4 + 20)
            rw [hopt, isOk_error] at ho
            have hb96 : ¬ (pureU32 b 60 + 4 + 20 + 96 ≤ b.length) := fun hx =>
              Bool.noConfusion (ho.mpr hx)
            rw [← hmag2.1]
            simp [h2, hm, h64, hpo, hsig, hmag2.2, h64m, h32m, hb96, hmagne]
          | ok o =>
            dsimp only
            have ho := parseOptionalHeader32_isOk b (pureU32 b 60 + 4 + 20)
            rw [hopt, isOk_ok] at ho
            have hb96 : pureU32 b 60 + 4 + 20 + 96 ≤ b.length := ho.mp rfl
            have hocount := parseOptionalHeader32_count b _ o hopt
            rw [parsePETail_isOk_bounds]
            rw [← hmag2.1]
            simp only [hsoh, hnsec, hocount, normalizeOptionalHeader]
            simp [h2, hm, h64, hpo, hsig, hmag2.2, h64m, h32m, hb96, hcb, hmagne, ddSecOk]
        · rw [if_neg h32m]
          rw [isOk_error]
          rw [← hmag2.1]
          simp [h64m, h32m]

theorem buildIATLookupEntry_writes (lib : String) (a : List Nat) :
    ∀ (f : List String) (m : List (Nat × IatEntry)),
      buildIATLookupEntry lib m a f =
        ((a.zip f).map (fun p => (p.1, ({ lib := lib, func := p.2 } : IatEntry)))).foldl
          (fun m2 p => jsMapSet m2 p.1 p.2) m := by
  induction a with
  | nil =>
    intro f m
    cases f <;> rfl
  | cons x as ih =>
    intro f m
    cases f with
    | nil => rfl
    | cons y fs =>
      show buildIATLookupEntry lib (jsMapSet m x { lib := lib, func := y }) as fs = _
      rw [ih fs (jsMapSet m x { lib := lib, func := y })]
      rfl

theorem buildIATLookup_writes_from (imps : List ImportEntryIat) :
    ∀ m : List (Nat × IatEntry),
      imps.foldl
          (fun m2 imp =>
            buildIATLookupEntry imp.libraryName m2 imp.iatAddresses imp.functions)
          m =
        (iatWrites imps).foldl (fun m2 p => jsMapSet m2 p.1 p.2) m := by
  induction imps with
  | nil => intro m; rfl
  | cons imp rest ih =>
    intro m
    rw [List.foldl_cons, ih, buildIATLookupEntry_writes]
    simp only [iatWrites, List.flatMap_cons, List.foldl_append]

theorem importIatAddresses_getD (imageBase firstThunk thunkSize n j : Nat)
    (hj : j < n) :
    (importIatAddresses imageBase firstThunk thunkSize n).getD j 0 =
      imageBase + firstThunk + j * thunkSize := by
  unfold importIatAddresses
  rw [List.getD_eq_getElem?_getD, List.getElem?_map, List.getElem?_range hj]
  rfl

/-- C2: every import descriptor parsed from the image yields an import entry
whose ordered IAT-address list aligns one-to-one with its function-name list,
the j-th VA being imageBase + firstThunk + j * thunkSize; and buildIATLookup
writes exactly the map entry iatAddresses[j] -> (library, functions[j]) for
every import i and every index j below both list lengths, in order, so each
such IAT map entry is well defined. -/
theorem C2_iat_map (b : List Nat) (sections : List SectionHeader) (is64 : Bool)
    (imageBase fuel off : Nat) :
    (∀ d ∈ parseImportDescriptorsAux b sections is64 fuel off,
      (mkImportEntryIat imageBase is64 d).iatAddresses.length =
          (mkImportEntryIat imageBase is64 d).functions.length ∧
        ∀ j, j < (mkImportEntryIat imageBase is64 d).functions.length →
          (mkImportEntryIat imageBase is64 d).iatAddresses.getD j 0 =
            imageBase + d.firstThunk + j * (if is64 then 8 else 4)) ∧
    ∀ imps : List ImportEntryIat,
      buildIATLookup imps =
        (iatWrites imps).foldl (fun m p => jsMapSet m p.1 p.2) [] := by
  constructor
  · intro d _
    constructor
    · show (importIatAddresses imageBase d.firstThunk (if is64 then 8 else 4)
          d.functions.length).length = d.functions.length
      unfold importIatAddresses
      rw [List.length_map, List.length_range]
    · intro j hj
      exact importIatAddresses_getD imageBase d.firstThunk
        (if is64 then 8 else 4) d.functions.length j hj
  · intro imps
    exact buildIATLookup_writes_from imps []

theorem C2_witness :
    ({ libraryName := "K32", functions := ["Fn"], firstThunk := 4096 } :
        ImportDescEntry) ∈ parseImportDescriptorsAux c2Bytes [] false 62 0 ∧
      (mkImportEntryIat 0x400000 false
          { libraryName := "K32", functions := ["Fn"],
            firstThunk := 4096 }).iatAddresses.getD 0 0 = 0x400000 + 4096 + 0 * 4 ∧
      buildIATLookup
          [mkImportEntryIat 0x400000 false
            { libraryName := "K32", functions := ["Fn"], firstThunk := 4096 }] =
        (iatWrites
            [mkImportEntryIat 0x400000 false
              { libraryName := "K32", functions := ["Fn"], firstThunk := 4096 }]).foldl
          (fun m p => jsMapSet m p.1 p.2) [] := by
  refine ⟨by decide, ?_, ?_⟩
  · exact ((C2_iat_map c2Bytes [] false 0x400000 62 0).1 _ (by decide)).2 0 (by decide)
  · exact (C2_iat_map c2Bytes [] false 0x400000 62 0).2 _

theorem jsMapGet_nil {β : Type} (k : Nat) : jsMapGet ([] : List (Nat × β)) k = none :=
  rfl

theorem isSome_map_snd {β : Type} (o : Option (Nat × β)) :
    (o.map Prod.snd).isSome = o.isSome := by
  cases o <;> rfl

theorem getLast?_mem_self {α : Type} :
    ∀ (l : List α) (a : α), l.getLast? = some a → a ∈ l
  | [], a => by intro h; exact Option.noConfusion h
  | [x], a => by
    intro h
    have : x = a := Option.some.inj h
    rw [this]
    exact List.mem_singleton_self a
  | x :: y :: t, a => by
    intro h
    rw [List.getLast?_cons_cons] at h
    exact List.mem_cons_of_mem x (getLast?_mem_self (y :: t) a h)

theorem find?_map_keep {β : Type} (a k : Nat) (v : β) :
    ∀ m : List (Nat × β),
      (m.map (fun p => if p.1 = a then (a, v) else p)).find?
          (fun p => decide (p.1 = k)) =
        (m.find? (fun p => decide (p.1 = k))).map
          (fun p => if p.1 = a then (a, v) else p)
  | [] => rfl
  | q :: rest => by
    rw [List.map_cons]
    by_cases hqk : q.1 = k
    · have hhead : ((if q.1 = a then (a, v) else q) : Nat × β).1 = k := by
        by_cases hqa : q.1 = a
        · rw [if_pos hqa]
          rw [← hqa]
          exact hqk
        · rw [if_neg hqa]
          exact hqk
      rw [List.find?_cons_of_pos _ (by simpa using hhead),
        List.find?_cons_of_pos _ (by simpa using hqk)]
      rfl
    · have hhead : ¬ (((if q.1 = a then (a, v) else q) : Nat × β).1 = k) := by
        by_cases hqa : q.1 = a
        · rw [if_pos hqa]
          rw [← hqa]
          exact hqk
        · rw [if_neg hqa]
          exact hqk
      rw [List.find?_cons_of_neg _ (by simpa using hhead),
        List.find?_cons_of_neg _ (by simpa using hqk)]
      exact find?_map_keep a k v rest

theorem jsMapGet_jsMapSet {β : Type} (m : List (Nat × β)) (a k : Nat) (v : β) :
    jsMapGet (jsMapSet m a v) k = if k = a then some v else jsMapGet m k := by
  unfold jsMapSet
  by_cases hf : (m.find? (fun p => decide (p.1 = a))).isSome = true
  · rw [if_pos hf]
    unfold jsMapGet
    rw [find?_map_keep]
    by_cases hka : k = a
    · subst hka
      rw [if_pos rfl]
      cases hfm : m.find? (fun p => decide (p.1 = k)) with
      | none => rw [hfm] at hf; simp at hf
      | some p =>
        have hp : p.1 = k := by simpa using List.find?_some hfm
        rw [Option.map_some', Option.map_some', if_pos hp]
    · rw [if_neg hka]
      cases hfm : m.find? (fun p => decide (p.1 = k)) with
      | none => rfl
      | some p =>
        have hp : p.1 = k := by simpa using List.find?_some hfm
        rw [Option.map_some', Option.map_some',
          if_neg (by rw [hp]; exact hka)]
        rfl
  · rw [if_neg hf]
    unfold jsMapGet
    rw [List.find?_append]
    by_cases hka : k = a
    · subst hka
      rw [if_pos rfl]
      have hnone : m.find? (fun p => decide (p.1 = k)) = none :=
        Option.not_isSome_iff_eq_none.mp hf
      rw [hnone, Option.none_or]
      simp
    · rw [if_neg hka]
      have hak : ¬ (((a, v) : Nat × β).1 = k) := fun h => hka h.symm
      have hfn : List.find? (fun p : Nat × β => decide (p.1 = k)) [(a, v)] = none := by
        simp [hak]
      rw [hfn, Option.or_none]

theorem jsMapGet_build {β : Type} (k : Nat) :
    ∀ (l m : List (Nat × β)),
      jsMapGet (l.foldl (fun m2 p => jsMapSet m2 p.1 p.2) m) k =
        (((l.filter (fun p => decide (p.1 = k))).getLast?).map Prod.snd).or
          (jsMapGet m k)
  | [], m => by
    rw [List.foldl_nil, List.filter_nil, List.getLast?_nil, Option.map_none',
      Option.none_or]
  | q :: l, m => by
    rw [List.foldl_cons, jsMapGet_build k l (jsMapSet m q.1 q.2)]
    by_cases hqk : q.1 = k
    · rw [List.filter_cons_of_pos (by simpa using hqk)]
      cases hl : (l.filter (fun p => decide (p.1 = k))).getLast? with
      | some p =>
        have hne : l.filter (fun p => decide (p.1 = k)) ≠ [] := by
          intro h0
          rw [h0, List.getLast?_nil] at hl
          exact Option.noConfusion hl
        have : (q :: l.filter (fun p => decide (p.1 = k))).getLast? = some p := by
          rw [show q :: l.filter (fun p => decide (p.1 = k)) =
              [q] ++ l.filter (fun p => decide (p.1 = k)) from rfl,
            List.getLast?_append, hl]
          rfl
        rw [this, Option.map_some', Option.or_some, Option.or_some]
      | none =>
        have hnil : l.filter (fun p => decide (p.1 = k)) = [] :=
          List.getLast?_eq_none_iff.mp hl
        rw [hnil, Option.map_none', Option.none_or, jsMapGet_jsMapSet,
          if_pos hqk.symm, List.getLast?_singleton, Option.map_some',
          Option.or_some]
    · rw [List.filter_cons_of_neg (by simpa using hqk)]
      cases hl : (l.filter (fun p => decide (p.1 = k))).getLast? with
      | some p => rw [Option.map_some', Option.or_some, Option.or_some]
      | none =>
        rw [Option.map_none', Option.none_or, Option.none_or,
          jsMapGet_jsMapSet, if_neg (fun hk => hqk hk.symm)]

theorem takeUtf16Run_pairs (b : List Nat) (endP : Nat) :
    ∀ (fuel i k : Nat), k < (takeUtf16Run b endP fuel i).length →
      utf16PairOk b endP (i + 2 * k) = true ∧
        (takeUtf16Run b endP fuel i).getD k 0 = b.getD (i + 2 * k) 0
  | 0, i, k => by
    intro hk
    simp [takeUtf16Run] at hk
  | fuel + 1, i, k => by
    intro hk
    unfold takeUtf16Run at hk ⊢
    cases hp : utf16PairOk b endP i with
    | false =>
      rw [if_neg (fun hx => Bool.false_ne_true (hp ▸ hx))] at hk
      simp at hk
    | true =>
      rw [if_pos hp] at hk
      rw [if_pos (Eq.refl true)]
      cases k with
      | zero => exact ⟨by simpa using hp, rfl⟩
      | succ k2 =>
        have hk2 : k2 < (takeUtf16Run b endP fuel (i + 2)).length := by
          simpa using Nat.lt_of_succ_lt_succ (by simpa using hk)
        have ih := takeUtf16Run_pairs b endP fuel (i + 2) k2 hk2
        constructor
        · rw [show i + 2 * (k2 + 1) = i + 2 + 2 * k2 from by ring]
          exact ih.1
        · rw [show i + 2 * (k2 + 1) = i + 2 + 2 * k2 from by ring]
          exact ih.2

theorem takeUtf16Run_length_le (b : List Nat) (endP : Nat) :
    ∀ (fuel i : Nat), (takeUtf16Run b endP fuel i).length ≤ fuel
  | 0, i => by simp [takeUtf16Run]
  | fuel + 1, i => by
    unfold takeUtf16Run
    cases hp : utf16PairOk b endP i with
    | false =>
      rw [if_neg (by decide)]
      simp
    | true =>
      rw [if_pos rfl]
      have := takeUtf16Run_length_le b endP fuel (i + 2)
      simpa using Nat.succ_le_succ this

theorem takeUtf16Run_term (b : List Nat) (endP : Nat) :
    ∀ (fuel i : Nat), (takeUtf16Run b endP fuel i).length < fuel →
      utf16PairOk b endP (i + 2 * (takeUtf16Run b endP fuel i).length) = false
  | 0, i => by intro h; omega
  | fuel + 1, i => by
    intro h
    unfold takeUtf16Run at h ⊢
    cases hp : utf16PairOk b endP i with
    | false =>
      rw [if_neg (fun hx => Bool.false_ne_true (hp ▸ hx))] at h
      rw [if_neg Bool.false_ne_true]
      simpa using hp
    | true =>
      rw [if_pos hp] at h
      rw [if_pos (Eq.refl true)]
      have hrest := takeUtf16Run_term b endP fuel (i + 2)
        (by simpa using Nat.lt_of_succ_lt_succ (by simpa using h))
      rw [List.length_cons,
        show i + 2 * ((takeUtf16Run b endP fuel (i + 2)).length + 1) =
          i + 2 + 2 * (takeUtf16Run b endP fuel (i + 2)).length from by ring]
      exact hrest

theorem takeUtf16Run_terminated (b : List Nat) (endP i : Nat) :
    utf16PairOk b endP (i + 2 * (takeUtf16Run b endP (endP - i) i).length) = false := by
  rcases Nat.lt_or_ge (takeUtf16Run b endP (endP - i) i).length (endP - i) with h | h
  · exact takeUtf16Run_term b endP (endP - i) i h
  · have hle := takeUtf16Run_length_le b endP (endP - i) i
    have hlen : (takeUtf16Run b endP (endP - i) i).length = endP - i :=
      Nat.le_antisymm hle h
    rw [hlen]
    unfold utf16PairOk
    have hlt : ¬ (i + 2 * (endP - i) + 1 < endP) := by omega
    simp [hlt]

theorem utf16ScanAux_mem (b : List Nat) (endP : Nat) (rdata : SectionHeader)
    (minLength : Nat) :
    ∀ (fuel i0 : Nat) (p : Nat × String),
      p ∈ utf16ScanAux b endP rdata minLength fuel i0 →
      ∃ i, p.1 = rdata.virtualAddress + (i - rdata.pointerToRawData) ∧
        minLength ≤ (takeUtf16Run b endP (endP - i) i).length ∧
        p.2 = String.mk ((takeUtf16Run b endP (endP - i) i).map Char.ofNat)
  | 0, i0, p => by
    intro hp
    simp [utf16ScanAux] at hp
  | fuel + 1, i0, p => by
    intro hp
    unfold utf16ScanAux at hp
    cases hb : utf16PairOk b endP i0 with
    | false =>
      rw [if_neg (fun hx => Bool.false_ne_true (hb ▸ hx))] at hp
      exact utf16ScanAux_mem b endP rdata minLength fuel (i0 + 2) p hp
    | true =>
      rw [if_pos hb] at hp
      dsimp only at hp
      rcases List.mem_append.mp hp with h1 | h2
      · by_cases hml : minLength ≤ (takeUtf16Run b endP (endP - i0) i0).length
        · rw [if_pos hml] at h1
          have hpe := List.mem_singleton.mp h1
          refine ⟨i0, ?_, hml, ?_⟩
          · rw [hpe]
          · rw [hpe]
        · rw [if_neg hml] at h1
          simp at h1
      · exact utf16ScanAux_mem b endP rdata minLength fuel
          (i0 + 2 * (takeUtf16Run b endP (endP - i0) i0).length + 2) p h2

/-- C3: with a strings section present, extract_strings emits, in addition
to the ASCII strings, the UTF-16LE strings: every entry of the UTF-16 sweep
is a maximal run of (low, 0x00) pairs with printable low bytes in
[0x20, 0x7E], of at least minLength pairs, keyed by the VA of its start
offset, its text being the low bytes of the run; and every emitted string
has its encoding recorded — the string map and the encoding map hold
exactly the same keys, a key emitted by the UTF-16 sweep is tagged utf16le,
and a key emitted only by the ASCII sweep is tagged ascii. -/
theorem C3_strings_encoding (b : List Nat) (sections : List SectionHeader)
    (minLength : Nat) (rdata : SectionHeader)
    (h : findRdataSection sections = some rdata) :
    let endP := min (rdata.pointerToRawData + rdata.sizeOfRawData) b.length
    let A := asciiScanAux b endP rdata minLength (b.length + 1) rdata.pointerToRawData
    let U := utf16ScanAux b endP rdata minLength (b.length + 1) rdata.pointerToRawData
    let S := (extractStringsWithEncoding b sections minLength).1
    let E := (extractStringsWithEncoding b sections minLength).2
    (∀ p ∈ U, ∃ i,
      p.1 = rdata.virtualAddress + (i - rdata.pointerToRawData) ∧
      minLength ≤ (takeUtf16Run b endP (endP - i) i).length ∧
      (∀ k, k < (takeUtf16Run b endP (endP - i) i).length →
        utf16PairOk b endP (i + 2 * k) = true ∧
        (takeUtf16Run b endP (endP - i) i).getD k 0 = b.getD (i + 2 * k) 0) ∧
      utf16PairOk b endP (i + 2 * (takeUtf16Run b endP (endP - i) i).length) = false ∧
      p.2 = String.mk ((takeUtf16Run b endP (endP - i) i).map Char.ofNat)) ∧
    (∀ va, (jsMapGet S va).isSome = (jsMapGet E va).isSome) ∧
    (∀ va, va ∈ U.map Prod.fst → jsMapGet E va = some StringEncoding.utf16le) ∧
    (∀ va, va ∉ U.map Prod.fst → va ∈ A.map Prod.fst →
      jsMapGet E va = some StringEncoding.ascii) := by
  intro endP A U S E
  have hSE : extractStringsWithEncoding b sections minLength =
      ((A ++ U).foldl (fun m p => jsMapSet m p.1 p.2) [],
       (A.map (fun p => (p.1, StringEncoding.ascii)) ++
          U.map (fun p => (p.1, StringEncoding.utf16le))).foldl
         (fun m p => jsMapSet m p.1 p.2) []) := by
    unfold extractStringsWithEncoding
    rw [h]
  have hS : S = (A ++ U).foldl (fun m p => jsMapSet m p.1 p.2) [] := by
    show (extractStringsWithEncoding b sections minLength).1 = _
    rw [hSE]
  have hE : E = (A.map (fun p => (p.1, StringEncoding.ascii)) ++
      U.map (fun p => (p.1, StringEncoding.utf16le))).foldl
        (fun m p => jsMapSet m p.1 p.2) [] := by
    show (extractStringsWithEncoding b sections minLength).2 = _
    rw [hSE]
  refine ⟨?_, ?_, ?_, ?_⟩
  · intro p hp
    obtain ⟨i, h1, h2, h3⟩ :=
      utf16ScanAux_mem b endP rdata minLength (b.length + 1)
        rdata.pointerToRawData p hp
    exact ⟨i, h1, h2,
      fun k hk => takeUtf16Run_pairs b endP (endP - i) i k hk,
      takeUtf16Run_terminated b endP i, h3⟩
  · intro va
    rw [hS, hE, jsMapGet_build, jsMapGet_build]
    rw [jsMapGet_nil, jsMapGet_nil, Option.or_none, Option.or_none,
      isSome_map_snd, isSome_map_snd]
    apply bool_eq_of_iff
    rw [List.getLast?_isSome, List.getLast?_isSome]
    simp [List.filter_append, List.filter_map, Function.comp]
  · intro va hva
    rw [hE, jsMapGet_build]
    rcases List.mem_map.mp hva with ⟨u, hu, hukey⟩
    have hfu : u ∈ U.filter (fun p => decide (p.1 = va)) :=
      List.mem_filter.mpr ⟨hu, by simpa using hukey⟩
    have hne : U.filter (fun p => decide (p.1 = va)) ≠ [] :=
      List.ne_nil_of_mem hfu
    rw [List.filter_append, List.filter_map, List.filter_map,
      List.getLast?_append]
    have hcomp : ((fun p : Nat × StringEncoding => decide (p.1 = va)) ∘
        (fun p : Nat × String => (p.1, StringEncoding.utf16le))) =
        (fun p : Nat × String => decide (p.1 = va)) := rfl
    rw [hcomp]
    have hmne : (U.filter (fun p => decide (p.1 = va))).map
        (fun p => (p.1, StringEncoding.utf16le)) ≠ [] := by
      simpa using hne
    cases hq : ((U.filter (fun p => decide (p.1 = va))).map
        (fun p => (p.1, StringEncoding.utf16le))).getLast? with
    | none => exact absurd (List.getLast?_eq_none_iff.mp hq) hmne
    | some q =>
      have hqmem := getLast?_mem_self _ q hq
      rcases List.mem_map.mp hqmem with ⟨u2, _, hq2⟩
      rw [Option.or_some, Option.map_some', jsMapGet_nil, Option.or_some,
        ← hq2]
  · intro va hva hvaA
    rw [hE, jsMapGet_build]
    have hfU : U.filter (fun p => decide (p.1 = va)) = [] := by
      rw [List.filter_eq_nil_iff]
      intro u hu
      simp only [decide_eq_true_eq]
      intro hk
      exact hva (List.mem_map.mpr ⟨u, hu, hk⟩)
    rcases List.mem_map.mp hvaA with ⟨q0, hq0, hq0key⟩
    have hfa : q0 ∈ A.filter (fun p => decide (p.1 = va)) :=
      List.mem_filter.mpr ⟨hq0, by simpa using hq0key⟩
    have hne : A.filter (fun p => decide (p.1 = va)) ≠ [] :=
      List.ne_nil_of_mem hfa
    rw [List.filter_append, List.filter_map, List.filter_map,
      List.getLast?_append]
    have hcompU : ((fun p : Nat × StringEncoding => decide (p.1 = va)) ∘
        (fun p : Nat × String => (p.1, StringEncoding.utf16le))) =
        (fun p : Nat × String => decide (p.1 = va)) := rfl
    have hcompA : ((fun p : Nat × StringEncoding => decide (p.1 = va)) ∘
        (fun p : Nat × String => (p.1, StringEncoding.ascii))) =
        (fun p : Nat × String => decide (p.1 = va)) := rfl
    rw [hcompU, hcompA, hfU, List.map_nil, List.getLast?_nil, Option.none_or]
    have hmne : (A.filter (fun p => decide (p.1 = va))).map
        (fun p => (p.1, StringEncoding.ascii)) ≠ [] := by
      simpa using hne
    cases hq : ((A.filter (fun p => decide (p.1 = va))).map
        (fun p => (p.1, StringEncoding.ascii))).getLast? with
    | none => exact absurd (List.getLast?_eq_none_iff.mp hq) hmne
    | some q =>
      have hqmem := getLast?_mem_self _ q hq
      rcases List.mem_map.mp hqmem with ⟨u2, _, hq2⟩
      rw [Option.map_some', jsMapGet_nil, Option.or_some, ← hq2]

theorem C3_witness :
    jsMapGet (extractStringsWithEncoding c3Bytes [c3Section] 4).2 0x2000 =
        some StringEncoding.utf16le ∧
      jsMapGet (extractStringsWithEncoding c3Bytes [c3Section] 4).2 0x200A =
        some StringEncoding.ascii ∧
      (jsMapGet (extractStringsWithEncoding c3Bytes [c3Section] 4).1 0x2000).isSome =
        (jsMapGet (extractStringsWithEncoding c3Bytes [c3Section] 4).2 0x2000).isSome := by
  refine ⟨?_, ?_, ?_⟩
  · exact (C3_strings_encoding c3Bytes [c3Section] 4 c3Section (by decide)).2.2.1
      0x2000 (by decide)
  · exact (C3_strings_encoding c3Bytes [c3Section] 4 c3Section (by decide)).2.2.2
      0x200A (by decide) (by decide)
  · exact (C3_strings_encoding c3Bytes [c3Section] 4 c3Section (by decide)).2.1 0x2000
